/-
  Verification of giulianopz/go-readability against its specification.

  This file shallowly embeds the parts of the Go source that the claims
  C1..C10 are about:
    - string helpers mirroring the Go regexp/strings operations used by the
      engine (readability.go);
    - a functional tree model of the DOM node type (domparser.go) for the
      scoring, cleaning and post-processing routines;
    - an arena model with explicit sibling links for the mutating tree
      operations appendChild / removeChild / replaceChild (domparser.go);
    - the retry loop of grabArticle and the Parse pipeline, parameterised
      over the extraction step;
    - the pre-flight classifier IsProbablyReaderable (readerable.go) over a
      model of the golang.org/x/net/html tree it operates on.

  Numeric conventions: Go `len(s)` (bytes) is String.utf8ByteSize,
  `len([]rune(s))` is String.length; float64 arithmetic on the scores is
  modelled with ℚ (all constants involved, 0.2 0.25 0.3 0.5 0.9, are exact
  in ℚ; the engine only compares sums/quotients of small integers scaled by
  these constants).
-/
import Mathlib

namespace GoReadability

/-! ## String helpers (Go strings/regexp primitives) -/

/-- The character class matched by the regexp escape backslash-s in Go
regexps: tab, newline, form feed, carriage return, space. -/
def isReSpace (c : Char) : Bool :=
  c = ' ' || c = '\t' || c = '\n' || c = '\x0c' || c = '\r'

/-- Characters trimmed by Go strings.TrimSpace (unicode.IsSpace); for the
Latin-1 range this is the regexp class plus vertical tab, NEL, NBSP. -/
def isGoSpace (c : Char) : Bool :=
  isReSpace c || c = '\x0b' || c = '\x85' || c = '\xa0'

/-- Go strings.TrimSpace. -/
def goTrimSpace (s : String) : String :=
  ⟨(s.data.dropWhile isGoSpace).reverse.dropWhile isGoSpace |>.reverse⟩

mutual

/-- Accumulating step of regexp-split on runs of whitespace: `cur` is the
reversed current piece. -/
def splitWsAcc : List Char → List Char → List (List Char)
  | [], cur => [cur.reverse]
  | c :: rest, cur =>
      if isReSpace c then cur.reverse :: splitWsSkipRun rest
      else splitWsAcc rest (c :: cur)

/-- Consume the remainder of a whitespace run, then start the next piece. -/
def splitWsSkipRun : List Char → List (List Char)
  | [] => [[]]
  | c :: rest =>
      if isReSpace c then splitWsSkipRun rest
      else splitWsAcc rest [c]

end

/-- Go regexp.Split with the pattern matching one-or-more whitespace
characters and n = -1 (the `multipleWhitespaces` regexp of the source):
the pieces of the string between maximal whitespace runs, keeping empty
leading/trailing pieces, and yielding a single empty piece on "". -/
def splitWs (s : String) : List String :=
  (splitWsAcc s.data []).map List.asString

/-- Replace every maximal run of two or more whitespace characters by a
single space (the `normalize` regexp of the source applied with
ReplaceAllString " "). A lone whitespace character is left as is.  The
Bool argument tracks being inside a run whose single space was already
emitted. -/
def normalizeWsAux : Bool → List Char → List Char
  | _, [] => []
  | inRun, c :: rest =>
      if isReSpace c then
        if inRun then normalizeWsAux true rest
        else
          match rest with
          | d :: _ =>
              if isReSpace d then ' ' :: normalizeWsAux true rest
              else c :: normalizeWsAux false rest
          | [] => [c]
      else c :: normalizeWsAux false rest

def normalizeWs (s : String) : String :=
  (normalizeWsAux false s.data).asString

/-- Does the first list start with the second one? -/
def charsStartWith : List Char → List Char → Bool
  | _, [] => true
  | [], _ :: _ => false
  | a :: l, b :: r => a = b && charsStartWith l r

/-- Does the pattern occur as a contiguous run inside the list? -/
def charsContain (s pat : List Char) : Bool :=
  if charsStartWith s pat then true
  else
    match s with
    | [] => false
    | _ :: rest => charsContain rest pat

/-- Naive substring test (Go strings.Contains / matching of a literal
regexp alternative). -/
def containsSub (s pat : String) : Bool :=
  charsContain s.data pat.data

/-- Go strings.ToLower restricted to ASCII, which is all the engine's
case-insensitive regexps rely on. -/
def lowerStr (s : String) : String :=
  ⟨s.data.map Char.toLower⟩

/-- Go strings.ToUpper restricted to ASCII. -/
def upperStr (s : String) : String :=
  ⟨s.data.map Char.toUpper⟩

/-- Rune length: Go len([]rune(s)). -/
def runeLen (s : String) : Nat := s.length

/-- Byte length: Go len(s). -/
def byteLen (s : String) : Nat := s.utf8ByteSize

/-! ## Functional tree model of the DOM node type (domparser.go)

A node is either an element (TagName stored uppercase as in the source,
attribute bag in insertion order, the ReadabilityDataTable mark as an
optional Bool) or a text node.  The `kids` list is the source's ChildNodes;
the source's Children (element children) is its element sublist. -/

inductive TNode where
  | elem (tag : String) (attrs : List (String × String))
      (dataTable : Option Bool) (kids : List TNode)
  | text (s : String)

mutual

def decEqTNode : (a b : TNode) → Decidable (a = b)
  | .text s, .text t =>
      if h : s = t then .isTrue (by rw [h]) else .isFalse (by simp [h])
  | .text _, .elem _ _ _ _ => .isFalse (by simp)
  | .elem _ _ _ _, .text _ => .isFalse (by simp)
  | .elem t1 a1 d1 k1, .elem t2 a2 d2 k2 =>
      if h : t1 = t2 ∧ a1 = a2 ∧ d1 = d2 then
        match decEqTNodeList k1 k2 with
        | .isTrue hk => .isTrue (by rw [h.1, h.2.1, h.2.2, hk])
        | .isFalse hk => .isFalse (by simp [hk])
      else .isFalse (by simp; tauto)

def decEqTNodeList : (a b : List TNode) → Decidable (a = b)
  | [], [] => .isTrue rfl
  | [], _ :: _ => .isFalse (by simp)
  | _ :: _, [] => .isFalse (by simp)
  | a :: l, b :: m =>
      match decEqTNode a b, decEqTNodeList l m with
      | .isTrue h, .isTrue h2 => .isTrue (by rw [h, h2])
      | .isFalse h, _ => .isFalse (by simp [h])
      | _, .isFalse h => .isFalse (by simp [h])

end

instance : DecidableEq TNode := decEqTNode

namespace TNode

def isElem : TNode → Bool
  | elem _ _ _ _ => true
  | text _ => false

def tagName : TNode → String
  | elem tag _ _ _ => tag
  | text _ => ""

def childNodes : TNode → List TNode
  | elem _ _ _ kids => kids
  | text _ => []

/-- The ReadabilityDataTable mark (nil pointer is `none`). -/
def dataTable : TNode → Option Bool
  | elem _ _ dt _ => dt
  | text _ => none

/-- The source's node.Children: the element children. -/
def elemChildren (n : TNode) : List TNode :=
  n.childNodes.filter isElem

/-- getAttribute: last matching entry wins (the source scans the attribute
list backwards); missing attribute yields "". -/
def getAttribute (n : TNode) (name : String) : String :=
  match n with
  | elem _ attrs _ _ =>
      match (attrs.reverse.find? fun a => a.1 = name) with
      | some a => a.2
      | none => ""
  | text _ => ""

def className (n : TNode) : String := n.getAttribute "class"

def idAttr (n : TNode) : String := n.getAttribute "id"

mutual

/-- getTextContent for elements: concatenation of all descendant text. -/
def textContent : TNode → String
  | text s => s
  | elem _ _ _ kids => textContentList kids

def textContentList : List TNode → String
  | [] => ""
  | k :: rest => textContent k ++ textContentList rest

end

mutual

/-- getElementsByTagName: all element descendants (excluding the node
itself) with the given tag (query already uppercased), in document order;
the source walks the element children recursively. -/
def elemsByTagUpper (tag : String) : TNode → List TNode
  | text _ => []
  | elem _ _ _ kids => elemsByTagUpperList tag kids

def elemsByTagUpperList (tag : String) : List TNode → List TNode
  | [] => []
  | k :: rest =>
      (if k.isElem && (k.tagName = tag) then [k] else []) ++
        elemsByTagUpper tag k ++ elemsByTagUpperList tag rest

end

def getElementsByTagName (n : TNode) (tag : String) : List TNode :=
  elemsByTagUpper (upperStr tag) n

/-- getAllNodesWithTag: concatenation of per-tag queries. -/
def getAllNodesWithTag (n : TNode) (tags : List String) : List TNode :=
  (tags.map fun t => n.getElementsByTagName t).foldl (· ++ ·) []

end TNode

/-! ## getInnerText and the scoring helpers (readability.go) -/

/-- getInnerText(e, true): TrimSpace then collapse whitespace runs. -/
def getInnerText (n : TNode) : Bool → String
  | true => normalizeWs (goTrimSpace n.textContent)
  | false => goTrimSpace n.textContent

/-- The comma characters of the `commas` regexp (Latin, Arabic, and CJK
variants). -/
def isCommaChar (c : Char) : Bool :=
  c = '\x2c' || c = '،' || c = '﹐' || c = '︐' ||
  c = '︑' || c = '⹁' || c = '⸴' || c = '⸲' || c = '，'

/-- Number of comma characters in a string. -/
def commaCount (s : String) : Nat :=
  (s.data.filter isCommaChar).length

/-- len(commas.Split(s, -1)): splitting on single-character alternatives
yields one more piece than there are comma characters. -/
def commasSplitLen (s : String) : Nat := commaCount s + 1

/-- The base content score a member of elementsToScore contributes before
ancestor division (grabArticle, scoring pass): `none` when the element is
skipped because its normalized inner text is shorter than 25 runes,
otherwise 1 (base) + len(commas.Split(text)) + min(floor(runes/100), 3).
All terms are integer-valued, so the source's float64 arithmetic is exact
and is modelled in ℕ. -/
def baseContentScore (e : TNode) : Option Nat :=
  let innerText := getInnerText e true
  if runeLen innerText < 25 then none
  else some (1 + commasSplitLen innerText + min (runeLen innerText / 100) 3)

/-- A 25-rune comma-free paragraph. -/
def scoreSampleLong : TNode :=
  TNode.elem "P" [] none [TNode.text "aaaaaaaaaaaaaaaaaaaaaaaaa"]

/-- A 4-rune paragraph, below the scoring threshold. -/
def scoreSampleShort : TNode :=
  TNode.elem "P" [] none [TNode.text "aaaa"]

/-- C2, counterexample: the claimed base score
1 + number_of_commas + min(floor(len/100), 3) is wrong: on a 25-rune text
with no commas the code computes 2 (the Go source adds
len(commas.Split(text)), which is the number of commas plus one, on top of
the base point), not 1. -/
theorem c2_counterexample :
    ¬ (baseContentScore scoreSampleLong =
        some (1 + commaCount (getInnerText scoreSampleLong true) +
          min (runeLen (getInnerText scoreSampleLong true) / 100) 3)) := by
  decide

/-- C2, amended: for every element whose trimmed, space-normalized text has
length at least 25 runes, the base content score distributed to its
ancestors equals exactly 2 + number_of_commas(text) +
min(floor(len(text)/100), 3) — one base point plus the length of the
comma-split of the text, which is the comma count plus one; elements whose
normalized text is shorter than 25 runes contribute no score. -/
theorem c2_baseContentScore (e : TNode) :
    (25 ≤ runeLen (getInnerText e true) →
      baseContentScore e =
        some (2 + commaCount (getInnerText e true) +
          min (runeLen (getInnerText e true) / 100) 3)) ∧
    (runeLen (getInnerText e true) < 25 → baseContentScore e = none) := by
  constructor
  · intro h
    simp only [baseContentScore, commasSplitLen]
    rw [if_neg (by omega)]
    congr 1
    omega
  · intro h
    simp only [baseContentScore]
    rw [if_pos h]

/-- C2, witness: the amended theorem applied to two concrete elements, one
above and one below the 25-rune threshold. -/
theorem c2_baseContentScore_witness :
    baseContentScore scoreSampleLong =
      some (2 + commaCount (getInnerText scoreSampleLong true) +
        min (runeLen (getInnerText scoreSampleLong true) / 100) 3) ∧
    baseContentScore scoreSampleShort = none :=
  ⟨(c2_baseContentScore scoreSampleLong).1 (by decide),
   (c2_baseContentScore scoreSampleShort).2 (by decide)⟩

/-! ## Data table detection (markDataTables, getRowAndColumnCount) -/

/-- Go strconv.Atoi on small inputs: optional sign, all remaining
characters must be digits. -/
def parseDigits : List Char → Option Nat
  | [] => none
  | l =>
      if l.all Char.isDigit then
        some (l.foldl (fun acc c => acc * 10 + (c.toNat - 48)) 0)
      else none

def goAtoi (s : String) : Option Int :=
  match s.data with
  | '+' :: rest => (parseDigits rest).map Int.ofNat
  | '-' :: rest => (parseDigits rest).map fun n => -(n : Int)
  | l => (parseDigits l).map Int.ofNat

/-- The span value contributed by a rowspan/colspan attribute: Atoi errors
are logged and leave num at 0 (the zero value), and a 0 span falls back to
1 row/column. -/
def spanContribution (v : String) : Int :=
  let num : Int := if v = "" then 0 else (goAtoi v).getD 0
  if num ≠ 0 then num else 1

/-- getRowAndColumnCount: sum of rowspans over all tr descendants, and the
maximum over rows of the colspan sum of the row's td descendants. -/
def getRowAndColumnCount (table : TNode) : Int × Int :=
  (table.getElementsByTagName "tr").foldl
    (fun acc tr =>
      let rows := acc.1 + spanContribution (tr.getAttribute "rowspan")
      let cols := (tr.getElementsByTagName "td").foldl
        (fun c td => c + spanContribution (td.getAttribute "colspan")) 0
      (rows, max acc.2 cols))
    (0, 0)

/-- The final ReadabilityDataTable value markDataTables assigns to a table.
The source's caption branch assigns true but, unlike every other branch,
does not `continue`; the nested-table branch assigns false and also falls
through.  Every path below those two assignments reassigns the mark, so
both are dead and the fall-through is mirrored here by simply skipping
them (their conditions are kept as unused bindings for reference). -/
def markDataTableValue (t : TNode) : Bool :=
  if t.getAttribute "role" = "presentation" then false
  else if t.getAttribute "datatable" = "0" then false
  else if t.getAttribute "summary" ≠ "" then true
  else
    let _captionWithChildren :=
      match (t.getElementsByTagName "caption").head? with
      | some cap => !cap.childNodes.isEmpty
      | none => false
    if ["col", "colgroup", "tfoot", "thead", "th"].any
        (fun tag => !(t.getElementsByTagName tag).isEmpty) then true
    else
      let _nestedTable := !(t.getElementsByTagName "table").isEmpty
      let rc := getRowAndColumnCount t
      if 10 ≤ rc.1 ∨ 4 < rc.2 then true
      else decide (10 < rc.1 * rc.2)

/-- A table with a caption that has a child, one row and one cell. -/
def captionTable : TNode :=
  TNode.elem "TABLE" [] none
    [TNode.elem "CAPTION" [] none [TNode.text "x"],
     TNode.elem "TR" [] none [TNode.elem "TD" [] none [TNode.text "a"]]]

/-- C6: the claim that every table with a caption with children is marked
as a data table fails on the code: the caption branch of markDataTables is
missing the `continue` present in every sibling branch (and in the Mozilla
source this port tracks), so its assignment is overwritten, and this small
captioned table ends up marked as a layout table. -/
theorem c6_caption_table_not_marked :
    (captionTable.getElementsByTagName "caption").any
        (fun cap => !cap.childNodes.isEmpty) = true ∧
    markDataTableValue captionTable = false := by
  decide

/-! ## lastElementChild (domparser.go) -/

/-- lastElementChild as written in the source: it guards on the length of
ChildNodes (all child nodes) but then indexes Children (element children
only) at its length minus one; a Go slice index of -1 panics, modelled as
an error value. -/
def lastElementChild (n : TNode) : Except String (Option TNode) :=
  if n.childNodes.isEmpty then .ok none
  else
    match n.elemChildren.getLast? with
    | some c => .ok (some c)
    | none => .error "index out of range"

/-- A node with one text child and no element children. -/
def textOnlyNode : TNode := TNode.elem "P" [] none [TNode.text "hello"]

/-- C10: the claim describes the intended behaviour (return the last
element child, else nil, without panicking), but the code checks
len(ChildNodes) while indexing Children, so on a node whose children are
all text nodes it evaluates Children[-1] and panics. -/
theorem c10_lastElementChild_panics :
    textOnlyNode.childNodes ≠ [] ∧
    textOnlyNode.elemChildren = [] ∧
    (lastElementChild textOnlyNode).isOk = false := by
  decide

/-! ## getArticleTitle (readability.go)

The title heuristic only manipulates the title string and compares it with
heading texts, so the document is passed in as: the parsed doc.title, the
innerTexts of any title elements (fallback when doc.title is empty), the
textContents of the h1/h2 headings, and the innerTexts of the h1
elements. -/

/-- The separator class of the title regexps: pipe, dash, backslash,
slash, greater-than, right guillemet. -/
def isSepChar (c : Char) : Bool :=
  c = '|' || c = '-' || c = '\\' || c = '/' || c = '>' || c = '»'

/-- The hierarchical subset used by the `titleSeparators` regexp. -/
def isHierSepChar (c : Char) : Bool :=
  c = '\\' || c = '/' || c = '>' || c = '»'

/-- Match of the `titleFinalPart` regexp: a separator with a space on both
sides. -/
def hasSpaceSepSpace : List Char → Bool
  | a :: b :: c :: rest =>
      (a = ' ' && isSepChar b && c = ' ') || hasSpaceSepSpace (b :: c :: rest)
  | _ => false

/-- Match of the `titleSeparators` regexp. -/
def hasSpaceHierSpace : List Char → Bool
  | a :: b :: c :: rest =>
      (a = ' ' && isHierSepChar b && c = ' ') || hasSpaceHierSpace (b :: c :: rest)
  | _ => false

/-- Group 1 of the first match of the `otherTitleSeparators` regexp
(.*)[sep] .* : the greedy leading group captures everything before the
last separator character followed by a space. -/
def otherSepGroup1 (l : List Char) : Option (List Char) :=
  ((List.range l.length).foldl
    (fun acc i =>
      match l.get? i, l.get? (i + 1) with
      | some ci, some cj => if isSepChar ci && cj = ' ' then some i else acc
      | _, _ => acc)
    none).map l.take

def wordCount (s : String) : Nat := (splitWs s).length

/-- separators.ReplaceAllString(s, ""): deleting every separator run is
deleting every separator character. -/
def stripSeps (s : String) : String :=
  ⟨s.data.filter fun c => !isSepChar c⟩

def afterLastColon (l : List Char) : List Char :=
  (l.reverse.takeWhile fun c => c ≠ ':').reverse

def afterFirstColon (l : List Char) : List Char :=
  (l.dropWhile fun c => c ≠ ':').drop 1

def beforeFirstColon (l : List Char) : List Char :=
  l.takeWhile fun c => c ≠ ':'

/-- The final whitespace normalization and the 4-word revert check of
getArticleTitle. -/
def finalizeTitle (hadHier : Bool) (origTitle cur : String) : String :=
  let curN := normalizeWs (goTrimSpace cur)
  let wc := wordCount curN
  if wc ≤ 4 && (!hadHier || wc ≠ wordCount (stripSeps origTitle)) then origTitle
  else curN

/-- getArticleTitle.  Faithful to the source, including the bug at the
"title too short, remove the first part instead" step: the source calls
titleFirstPart.ReplaceAllStringFunc with a callback that returns its
argument unchanged, so the assignment is the identity and curTitle becomes
the original title. -/
def getArticleTitle (docTitle : String) (titleTexts headingTexts h1Texts :
    List String) : String :=
  let trimmed := goTrimSpace docTitle
  let origTitle :=
    if trimmed = "" then
      match titleTexts.head? with
      | some t => t
      | none => trimmed
    else trimmed
  let curTitle := origTitle
  if hasSpaceSepSpace curTitle.data then
    let hadHier := hasSpaceHierSpace curTitle.data
    let cur2 :=
      match otherSepGroup1 origTitle.data with
      | some g => g.asString
      | none => curTitle
    let cur3 :=
      if wordCount cur2 < 3 then origTitle   -- no-op replacement (see above)
      else cur2
    finalizeTitle hadHier origTitle cur3
  else if containsSub curTitle ": " then
    let trimmedTitle := goTrimSpace curTitle
    let headingMatch := headingTexts.any fun h => goTrimSpace h = trimmedTitle
    let cur2 :=
      if !headingMatch then (afterLastColon origTitle.data).asString
      else curTitle
    let cur3 :=
      if wordCount cur2 < 3 then (afterFirstColon origTitle.data).asString
      else if 5 < wordCount (beforeFirstColon origTitle.data).asString then
        origTitle
      else cur2
    finalizeTitle false origTitle cur3
  else
    let cur2 :=
      if 150 < runeLen curTitle || runeLen curTitle < 15 then
        match h1Texts with
        | [t] => t
        | _ => curTitle
      else curTitle
    finalizeTitle false origTitle cur2

/-- C4: on a title whose final-segment strip leaves fewer than 3 words,
the claim says the first segment of the original title is stripped
instead; the code's replacement callback returns the matched string
unchanged, so the whole original title is kept: the result still contains
the first segment and the separator, instead of the claimed
"One Two Three Four Five". -/
theorem c4_first_segment_not_stripped :
    getArticleTitle "Hi > One Two Three Four Five" [] [] [] =
      "Hi > One Two Three Four Five" ∧
    getArticleTitle "Hi > One Two Three Four Five" [] [] [] ≠
      "One Two Three Four Five" := by
  decide

/-! ## The grabArticle retry loop (readability.go)

The body of each grabArticle iteration (pruning, scoring, candidate
selection, sibling unification, prepArticle) deterministically maps the
flag state to an article and its measured text length, because the loop
restores the cached body HTML (page.SetInnerHTML(pageCacheHtml)) before
every retry; it is abstracted here as `extract : Nat → α × Nat` over the
bitmask flag state.  The loop itself — threshold test, flag dropping
order, attempt recording, final sort — is translated statement by
statement. -/

def flagStripUnlikelys : Nat := 1
def flagWeightClasses : Nat := 2
def flagCleanConditionally : Nat := 4

def flagIsActive (flags flag : Nat) : Bool := 0 < Nat.land flags flag

/-- r.flags &^ flag. -/
def removeFlag (flags flag : Nat) : Nat := flags - Nat.land flags flag

/-- Insertion step of the sort of the attempts slice.  The source calls
slices.SortFunc with cmp(a,b) = b.textLength - a.textLength; on a slice of
at most four attempts the Go runtime performs a stable insertion sort, so
an attempt moves left only past strictly shorter ones. -/
def insertAttemptDesc {α : Type} (x : α × Nat) : List (α × Nat) → List (α × Nat)
  | [] => [x]
  | y :: ys => if y.2 ≤ x.2 then x :: y :: ys else y :: insertAttemptDesc x ys

/-- Stable sort of the attempts by text length, descending. -/
def sortAttemptsDesc {α : Type} : List (α × Nat) → List (α × Nat)
  | [] => []
  | x :: xs => insertAttemptDesc x (sortAttemptsDesc xs)

/-- The grabArticle retry loop: `trace` records the flag state of every
iteration; fuel 4 is enough from the initial all-flags state because each
failed iteration clears one flag. -/
def grabLoop {α : Type} (extract : Nat → α × Nat) (threshold : Nat) :
    Nat → Nat → List (α × Nat) → List Nat → List Nat × Option α
  | 0, _, _, trace => (trace, none)
  | fuel + 1, flags, attempts, trace =>
      let a := extract flags
      if a.2 < threshold then
        if flagIsActive flags flagStripUnlikelys then
          grabLoop extract threshold fuel (removeFlag flags flagStripUnlikelys)
            (attempts ++ [a]) (trace ++ [flags])
        else if flagIsActive flags flagWeightClasses then
          grabLoop extract threshold fuel (removeFlag flags flagWeightClasses)
            (attempts ++ [a]) (trace ++ [flags])
        else if flagIsActive flags flagCleanConditionally then
          grabLoop extract threshold fuel (removeFlag flags flagCleanConditionally)
            (attempts ++ [a]) (trace ++ [flags])
        else
          match (sortAttemptsDesc (attempts ++ [a])).head? with
          | none => (trace ++ [flags], none)
          | some best =>
              if best.2 = 0 then (trace ++ [flags], none)
              else (trace ++ [flags], some best.1)
      else (trace ++ [flags], some a.1)

/-- grabArticle's loop started with all three flags set. -/
def grabArticleRetry {α : Type} (extract : Nat → α × Nat) (threshold : Nat) :
    List Nat × Option α :=
  grabLoop extract threshold 4
    (Nat.lor flagStripUnlikelys (Nat.lor flagWeightClasses flagCleanConditionally))
    [] []

/-- The longest attempt length. -/
def maxTextLen {α : Type} (l : List (α × Nat)) : Nat :=
  l.foldr (fun a m => max a.2 m) 0

theorem le_maxTextLen {α : Type} {l : List (α × Nat)} {a : α × Nat}
    (h : a ∈ l) : a.2 ≤ maxTextLen l := by
  induction l with
  | nil => cases h
  | cons x xs ih =>
      rcases List.mem_cons.mp h with h | h
      · subst h; exact Nat.le_max_left _ _
      · exact le_trans (ih h) (Nat.le_max_right _ _)

theorem mem_insertAttemptDesc {α : Type} {x a : α × Nat}
    {l : List (α × Nat)} (h : a ∈ insertAttemptDesc x l) : a = x ∨ a ∈ l := by
  induction l with
  | nil =>
      simp only [insertAttemptDesc, List.mem_singleton] at h
      exact Or.inl h
  | cons y ys ih =>
      by_cases hc : y.2 ≤ x.2
      · simp only [insertAttemptDesc, if_pos hc] at h
        rcases List.mem_cons.mp h with h | h
        · exact Or.inl h
        · exact Or.inr h
      · simp only [insertAttemptDesc, if_neg hc] at h
        rcases List.mem_cons.mp h with h | h
        · exact Or.inr (h ▸ List.mem_cons_self _ _)
        · rcases ih h with h | h
          · exact Or.inl h
          · exact Or.inr (List.mem_cons_of_mem _ h)

theorem mem_of_mem_sortAttemptsDesc {α : Type} {a : α × Nat} :
    ∀ {l : List (α × Nat)}, a ∈ sortAttemptsDesc l → a ∈ l := by
  intro l
  induction l with
  | nil =>
      intro h
      simp only [sortAttemptsDesc] at h
      exact h
  | cons x xs ih =>
      intro h
      rcases mem_insertAttemptDesc h with h | h
      · exact h ▸ List.mem_cons_self _ _
      · exact List.mem_cons_of_mem _ (ih h)

theorem insertAttemptDesc_ne_nil {α : Type} {x : α × Nat} :
    ∀ {l : List (α × Nat)}, insertAttemptDesc x l ≠ [] := by
  intro l
  cases l with
  | nil => simp [insertAttemptDesc]
  | cons y ys =>
      by_cases hc : y.2 ≤ x.2 <;> simp [insertAttemptDesc, hc]

/-- The head of the stable descending sort is the earliest attempt of
maximal text length. -/
theorem sortAttemptsDesc_head {α : Type} :
    ∀ l : List (α × Nat),
      (sortAttemptsDesc l).head? =
        l.find? fun a => decide (maxTextLen l ≤ a.2) := by
  intro l
  induction l with
  | nil => simp [sortAttemptsDesc]
  | cons x xs ih =>
      by_cases hx : maxTextLen xs ≤ x.2
      · have hM : maxTextLen (x :: xs) = x.2 := by
          simp only [maxTextLen, List.foldr_cons]
          exact Nat.max_eq_left hx
        have hfind :
            List.find? (fun a => decide (maxTextLen (x :: xs) ≤ a.2)) (x :: xs) =
              some x := by
          rw [List.find?_cons]
          simp [hM]
        rw [hfind]
        cases hS : sortAttemptsDesc xs with
        | nil => simp [sortAttemptsDesc, hS, insertAttemptDesc]
        | cons s0 rest =>
            have hs0 : s0 ∈ xs :=
              mem_of_mem_sortAttemptsDesc (hS ▸ List.mem_cons_self s0 rest)
            have hle : s0.2 ≤ x.2 := le_trans (le_maxTextLen hs0) hx
            simp [sortAttemptsDesc, hS, insertAttemptDesc, hle]
      · push_neg at hx
        have hM : maxTextLen (x :: xs) = maxTextLen xs := by
          simp only [maxTextLen, List.foldr_cons]
          exact Nat.max_eq_right (le_of_lt hx)
        obtain ⟨s0, rest, hS⟩ :
            ∃ s0 rest, sortAttemptsDesc xs = s0 :: rest := by
          cases hxs : xs with
          | nil => subst hxs; simp [maxTextLen] at hx
          | cons y ys =>
              subst hxs
              simp only [sortAttemptsDesc]
              exact List.exists_cons_of_ne_nil insertAttemptDesc_ne_nil
        have hfindxs : List.find? (fun a => decide (maxTextLen xs ≤ a.2)) xs =
            some s0 := by
          rw [← ih, hS]; rfl
        have hs0max : maxTextLen xs ≤ s0.2 := by
          have := List.find?_some hfindxs
          simpa using this
        have hgt : ¬ s0.2 ≤ x.2 := by omega
        have hLHS : (sortAttemptsDesc (x :: xs)).head? = some s0 := by
          simp only [sortAttemptsDesc, hS, insertAttemptDesc, if_neg hgt]
          rfl
        have hpx : ¬ (maxTextLen (x :: xs) ≤ x.2) := by omega
        rw [hLHS, List.find?_cons]
        simp only [decide_eq_true_eq, hpx, if_false, hM, decide_False]
        rw [hfindxs]
        have hd : decide (maxTextLen xs ≤ x.2) = false :=
          decide_eq_false (by omega)
        rw [hd]

theorem grabLoop_step_su {α : Type} (extract : Nat → α × Nat) (T fuel flags : Nat)
    (attempts : List (α × Nat)) (trace : List Nat)
    (h : (extract flags).2 < T)
    (h1 : flagIsActive flags flagStripUnlikelys = true) :
    grabLoop extract T (fuel + 1) flags attempts trace =
      grabLoop extract T fuel (removeFlag flags flagStripUnlikelys)
        (attempts ++ [extract flags]) (trace ++ [flags]) := by
  simp only [grabLoop, h1, if_pos h, if_true]

theorem grabLoop_step_wc {α : Type} (extract : Nat → α × Nat) (T fuel flags : Nat)
    (attempts : List (α × Nat)) (trace : List Nat)
    (h : (extract flags).2 < T)
    (h1 : flagIsActive flags flagStripUnlikelys = false)
    (h2 : flagIsActive flags flagWeightClasses = true) :
    grabLoop extract T (fuel + 1) flags attempts trace =
      grabLoop extract T fuel (removeFlag flags flagWeightClasses)
        (attempts ++ [extract flags]) (trace ++ [flags]) := by
  simp only [grabLoop, h1, h2, if_pos h, if_true, Bool.false_eq_true, if_false]

theorem grabLoop_step_cc {α : Type} (extract : Nat → α × Nat) (T fuel flags : Nat)
    (attempts : List (α × Nat)) (trace : List Nat)
    (h : (extract flags).2 < T)
    (h1 : flagIsActive flags flagStripUnlikelys = false)
    (h2 : flagIsActive flags flagWeightClasses = false)
    (h3 : flagIsActive flags flagCleanConditionally = true) :
    grabLoop extract T (fuel + 1) flags attempts trace =
      grabLoop extract T fuel (removeFlag flags flagCleanConditionally)
        (attempts ++ [extract flags]) (trace ++ [flags]) := by
  simp only [grabLoop, h1, h2, h3, if_pos h, if_true, Bool.false_eq_true, if_false]

theorem grabLoop_step_final {α : Type} (extract : Nat → α × Nat) (T fuel flags : Nat)
    (attempts : List (α × Nat)) (trace : List Nat)
    (h : (extract flags).2 < T)
    (h1 : flagIsActive flags flagStripUnlikelys = false)
    (h2 : flagIsActive flags flagWeightClasses = false)
    (h3 : flagIsActive flags flagCleanConditionally = false) :
    grabLoop extract T (fuel + 1) flags attempts trace =
      (trace ++ [flags],
        match (sortAttemptsDesc (attempts ++ [extract flags])).head? with
        | none => none
        | some best => if best.2 = 0 then none else some best.1) := by
  simp only [grabLoop, h1, h2, h3, if_pos h, Bool.false_eq_true, if_false]
  cases hH : (sortAttemptsDesc (attempts ++ [extract flags])).head? with
  | none => rfl
  | some best => by_cases hb : best.2 = 0 <;> simp [hb]

/-- The earliest-maximum find always succeeds on a nonempty list and
returns an attempt of maximal length. -/
theorem find_max_spec {α : Type} (x : α × Nat) (xs : List (α × Nat)) :
    ∃ b, (x :: xs).find? (fun a => decide (maxTextLen (x :: xs) ≤ a.2)) =
        some b ∧ b.2 = maxTextLen (x :: xs) := by
  obtain ⟨s0, rest, hS⟩ : ∃ s0 rest, sortAttemptsDesc (x :: xs) = s0 :: rest := by
    simp only [sortAttemptsDesc]
    exact List.exists_cons_of_ne_nil insertAttemptDesc_ne_nil
  have hfind : (x :: xs).find?
      (fun a => decide (maxTextLen (x :: xs) ≤ a.2)) = some s0 := by
    rw [← sortAttemptsDesc_head, hS]
    rfl
  refine ⟨s0, hfind, ?_⟩
  have hmem : s0 ∈ x :: xs :=
    mem_of_mem_sortAttemptsDesc (hS ▸ List.mem_cons_self s0 rest)
  have hge : maxTextLen (x :: xs) ≤ s0.2 := by
    have := List.find?_some hfind
    simpa using this
  exact le_antisymm (le_maxTextLen hmem) hge

/-- Helper shared by the retry-loop and Parse-pipeline theorems: the full
characterization of the loop when every extraction stays below the
threshold. -/
theorem retry_loop_exhausted {α : Type} (extract : Nat → α × Nat) (threshold : Nat)
    (h7 : (extract 7).2 < threshold) (h6 : (extract 6).2 < threshold)
    (h4 : (extract 4).2 < threshold) (h0 : (extract 0).2 < threshold) :
    grabArticleRetry extract threshold =
      ([7, 6, 4, 0],
        let attempts := [extract 7, extract 6, extract 4, extract 0]
        if maxTextLen attempts = 0 then none
        else (attempts.find? fun a => decide (maxTextLen attempts ≤ a.2)).map
          Prod.fst) := by
  have e0 : grabArticleRetry extract threshold
      = grabLoop extract threshold (3 + 1) 7 [] [] := rfl
  rw [e0]
  rw [grabLoop_step_su extract threshold 3 7 [] [] h7 (by decide)]
  rw [show removeFlag 7 flagStripUnlikelys = 6 from rfl]
  rw [show (3 : Nat) = 2 + 1 from rfl]
  rw [grabLoop_step_wc extract threshold 2 6 _ _ h6 (by decide) (by decide)]
  rw [show removeFlag 6 flagWeightClasses = 4 from rfl]
  rw [show (2 : Nat) = 1 + 1 from rfl]
  rw [grabLoop_step_cc extract threshold 1 4 _ _ h4 (by decide) (by decide)
    (by decide)]
  rw [show removeFlag 4 flagCleanConditionally = 0 from rfl]
  rw [show (1 : Nat) = 0 + 1 from rfl]
  rw [grabLoop_step_final extract threshold 0 0 _ _ h0 (by decide) (by decide)
    (by decide)]
  obtain ⟨b, hfind, hb2⟩ :=
    find_max_spec (extract 7) [extract 6, extract 4, extract 0]
  simp only [List.nil_append, List.singleton_append, List.cons_append]
  rw [sortAttemptsDesc_head, hfind]
  by_cases hmax :
      maxTextLen [extract 7, extract 6, extract 4, extract 0] = 0
  · rw [if_pos hmax]
    have : b.2 = 0 := by rw [hb2, hmax]
    simp [this]
  · rw [if_neg hmax]
    have : b.2 ≠ 0 := by rw [hb2]; exact hmax
    simp [this, hfind]

/-- C1: from the all-flags state, when every extraction stays below the
threshold, the loop visits exactly the flag states
7 (STRIP_UNLIKELYS + WEIGHT_CLASSES + CLEAN_CONDITIONALLY), 6, 4, 0 —
restoring the cached body and dropping one flag per failed attempt in that
order — and then returns the earliest of the recorded attempts with
maximal text length, or nothing if even the longest has zero length. -/
theorem c1_retry_loop {α : Type} (extract : Nat → α × Nat) (threshold : Nat)
    (h7 : (extract 7).2 < threshold) (h6 : (extract 6).2 < threshold)
    (h4 : (extract 4).2 < threshold) (h0 : (extract 0).2 < threshold) :
    grabArticleRetry extract threshold =
      ([7, 6, 4, 0],
        let attempts := [extract 7, extract 6, extract 4, extract 0]
        if maxTextLen attempts = 0 then none
        else (attempts.find? fun a => decide (maxTextLen attempts ≤ a.2)).map
          Prod.fst) :=
  retry_loop_exhausted extract threshold h7 h6 h4 h0

/-- C1, witness: a concrete extraction where the second attempt is the
longest; the loop returns it after exhausting the flags. -/
theorem c1_retry_loop_witness :
    grabArticleRetry
        (fun flags => (flags, if flags = 6 then 9 else 3)) 500 =
      ([7, 6, 4, 0], some 6) := by
  have h := c1_retry_loop
    (fun flags => (flags, if flags = 6 then 9 else 3)) 500
    (by decide) (by decide) (by decide) (by decide)
  rw [h]
  decide

/-! ## New + Parse error behaviour (readability.go)

The HTML-to-tree parser is an external collaborator (spec section 1), so
the pipeline is parameterised over it: `parseDoc` stands for
newDOMParser().parse, `getBody` for doc.Body, `countAllElements` for
len(doc.getElementsByTagName("*")), and `extract` for one full grabArticle
iteration of the parsed document at a given flag state.  The intermediate
mutating passes (unwrapNoscriptImages, metadata extraction, prepDocument)
return no errors in the source and are absorbed into `extract`. -/

inductive ParseError where
  | emptyInput
  | parseFailure
  | documentTooLarge
  | extractionFailed
deriving DecidableEq

structure PipelineEnv (δ α : Type) where
  parseDoc : String → String → δ
  getBody : δ → Option δ
  countAllElements : δ → Nat
  extract : δ → Nat → α × Nat

/-- The constructor New: empty input and missing-body failures. -/
def newReadability {δ α : Type} (env : PipelineEnv δ α)
    (htmlSource uri : String) : Except ParseError δ :=
  if htmlSource = "" then .error .emptyInput
  else
    let doc := env.parseDoc htmlSource uri
    match env.getBody doc with
    | none => .error .parseFailure
    | some _ => .ok doc

/-- Parse: the maxElemsToParse guard, then grabArticle with the retry
loop; a nil article is the only remaining error. -/
def parseArticle {δ α : Type} (env : PipelineEnv δ α)
    (maxElemsToParse charThreshold : Nat) (doc : δ) : Except ParseError α :=
  if 0 < maxElemsToParse ∧ maxElemsToParse < env.countAllElements doc then
    .error .documentTooLarge
  else
    match (grabArticleRetry (env.extract doc) charThreshold).2 with
    | none => .error .extractionFailed
    | some content => .ok content

def runPipeline {δ α : Type} (env : PipelineEnv δ α)
    (maxElemsToParse charThreshold : Nat) (htmlSource uri : String) :
    Except ParseError α :=
  match newReadability env htmlSource uri with
  | .error e => .error e
  | .ok doc => parseArticle env maxElemsToParse charThreshold doc

theorem grabLoop_step_success {α : Type} (extract : Nat → α × Nat)
    (T fuel flags : Nat) (attempts : List (α × Nat)) (trace : List Nat)
    (h : ¬ (extract flags).2 < T) :
    grabLoop extract T (fuel + 1) flags attempts trace =
      (trace ++ [flags], some (extract flags).1) := by
  simp only [grabLoop, if_neg h]

/-- The retry loop yields nothing exactly when all four attempts have zero
text length (for a positive threshold). -/
theorem grabRetry_none_iff {α : Type} (extract : Nat → α × Nat) (T : Nat)
    (hT : 0 < T) :
    (grabArticleRetry extract T).2 = none ↔
      ((extract 7).2 = 0 ∧ (extract 6).2 = 0 ∧ (extract 4).2 = 0 ∧
        (extract 0).2 = 0) := by
  constructor
  · intro hnone
    by_cases c7 : (extract 7).2 < T
    · by_cases c6 : (extract 6).2 < T
      · by_cases c4 : (extract 4).2 < T
        · by_cases c0 : (extract 0).2 < T
          · rw [retry_loop_exhausted extract T c7 c6 c4 c0] at hnone
            simp only at hnone
            by_cases hmax :
                maxTextLen [extract 7, extract 6, extract 4, extract 0] = 0
            · refine ⟨?_, ?_, ?_, ?_⟩
              · have h1 := le_maxTextLen
                  (l := [extract 7, extract 6, extract 4, extract 0])
                  (a := extract 7) (by simp)
                omega
              · have h1 := le_maxTextLen
                  (l := [extract 7, extract 6, extract 4, extract 0])
                  (a := extract 6) (by simp)
                omega
              · have h1 := le_maxTextLen
                  (l := [extract 7, extract 6, extract 4, extract 0])
                  (a := extract 4) (by simp)
                omega
              · have h1 := le_maxTextLen
                  (l := [extract 7, extract 6, extract 4, extract 0])
                  (a := extract 0) (by simp)
                omega
            · exfalso
              rw [if_neg hmax] at hnone
              obtain ⟨b, hfind, _⟩ :=
                find_max_spec (extract 7) [extract 6, extract 4, extract 0]
              rw [hfind] at hnone
              simp at hnone
          · exfalso
            have e0 : grabArticleRetry extract T
                = grabLoop extract T (3 + 1) 7 [] [] := rfl
            rw [e0, grabLoop_step_su extract T 3 7 [] [] c7 (by decide),
              show removeFlag 7 flagStripUnlikelys = 6 from rfl,
              show (3 : Nat) = 2 + 1 from rfl,
              grabLoop_step_wc extract T 2 6 _ _ c6 (by decide) (by decide),
              show removeFlag 6 flagWeightClasses = 4 from rfl,
              show (2 : Nat) = 1 + 1 from rfl,
              grabLoop_step_cc extract T 1 4 _ _ c4 (by decide) (by decide)
                (by decide),
              show removeFlag 4 flagCleanConditionally = 0 from rfl,
              show (1 : Nat) = 0 + 1 from rfl,
              grabLoop_step_success extract T 0 0 _ _ c0] at hnone
            simp at hnone
        · exfalso
          have e0 : grabArticleRetry extract T
              = grabLoop extract T (3 + 1) 7 [] [] := rfl
          rw [e0, grabLoop_step_su extract T 3 7 [] [] c7 (by decide),
            show removeFlag 7 flagStripUnlikelys = 6 from rfl,
            show (3 : Nat) = 2 + 1 from rfl,
            grabLoop_step_wc extract T 2 6 _ _ c6 (by decide) (by decide),
            show removeFlag 6 flagWeightClasses = 4 from rfl,
            show (2 : Nat) = 1 + 1 from rfl,
            grabLoop_step_success extract T 1 4 _ _ c4] at hnone
          simp at hnone
      · exfalso
        have e0 : grabArticleRetry extract T
            = grabLoop extract T (3 + 1) 7 [] [] := rfl
        rw [e0, grabLoop_step_su extract T 3 7 [] [] c7 (by decide),
          show removeFlag 7 flagStripUnlikelys = 6 from rfl,
          show (3 : Nat) = 2 + 1 from rfl,
          grabLoop_step_success extract T 2 6 _ _ c6] at hnone
        simp at hnone
    · exfalso
      have e0 : grabArticleRetry extract T
          = grabLoop extract T (3 + 1) 7 [] [] := rfl
      rw [e0, grabLoop_step_success extract T 3 7 _ _ c7] at hnone
      simp at hnone
  · rintro ⟨z7, z6, z4, z0⟩
    rw [retry_loop_exhausted extract T (by omega) (by omega) (by omega)
      (by omega)]
    simp only [maxTextLen, List.foldr_cons, List.foldr_nil, z7, z6, z4, z0]
    rfl

/-- C5: construction plus Parse fails exactly on: empty input, a document
with no body, a set-and-exceeded maxElemsToParse, or all retries producing
zero-length text; in every other case a result is returned.  The positive
charThreshold hypothesis reflects the default of 500. -/
theorem c5_parse_error_cases {δ α : Type} (env : PipelineEnv δ α)
    (maxElemsToParse charThreshold : Nat) (htmlSource uri : String)
    (hT : 0 < charThreshold) :
    (runPipeline env maxElemsToParse charThreshold htmlSource uri).isOk
        = false ↔
      (htmlSource = "" ∨
        env.getBody (env.parseDoc htmlSource uri) = none ∨
        (0 < maxElemsToParse ∧
          maxElemsToParse <
            env.countAllElements (env.parseDoc htmlSource uri)) ∨
        ((env.extract (env.parseDoc htmlSource uri) 7).2 = 0 ∧
          (env.extract (env.parseDoc htmlSource uri) 6).2 = 0 ∧
          (env.extract (env.parseDoc htmlSource uri) 4).2 = 0 ∧
          (env.extract (env.parseDoc htmlSource uri) 0).2 = 0)) := by
  by_cases hempty : htmlSource = ""
  · have hrun : runPipeline env maxElemsToParse charThreshold htmlSource uri
        = .error .emptyInput := by
      simp [runPipeline, newReadability, hempty]
    rw [hrun]
    simp [Except.isOk, Except.toBool, hempty]
  · cases hbody : env.getBody (env.parseDoc htmlSource uri) with
    | none =>
        have hrun : runPipeline env maxElemsToParse charThreshold htmlSource uri
            = .error .parseFailure := by
          simp [runPipeline, newReadability, parseArticle, hempty, hbody]
        rw [hrun]
        simp [Except.isOk, Except.toBool, hempty, hbody]
    | some b =>
        by_cases hmax : 0 < maxElemsToParse ∧
            maxElemsToParse < env.countAllElements (env.parseDoc htmlSource uri)
        · have hrun : runPipeline env maxElemsToParse charThreshold htmlSource
              uri = .error .documentTooLarge := by
            simp [runPipeline, newReadability, parseArticle, hempty, hbody, hmax]
          rw [hrun]
          simp [Except.isOk, Except.toBool, hempty, hbody, hmax]
        · cases hgrab : (grabArticleRetry
              (env.extract (env.parseDoc htmlSource uri)) charThreshold).2 with
          | none =>
              have hz := (grabRetry_none_iff _ _ hT).mp hgrab
              have hrun : runPipeline env maxElemsToParse charThreshold
                  htmlSource uri = .error .extractionFailed := by
                simp [runPipeline, newReadability, parseArticle, hempty, hbody,
                  hmax, hgrab]
              rw [hrun]
              simp [Except.isOk, Except.toBool, hempty, hbody, hmax, hz]
          | some content =>
              have hz : ¬ ((env.extract (env.parseDoc htmlSource uri) 7).2 = 0 ∧
                  (env.extract (env.parseDoc htmlSource uri) 6).2 = 0 ∧
                  (env.extract (env.parseDoc htmlSource uri) 4).2 = 0 ∧
                  (env.extract (env.parseDoc htmlSource uri) 0).2 = 0) := by
                intro hc
                rw [(grabRetry_none_iff _ _ hT).mpr hc] at hgrab
                cases hgrab
              have hrun : runPipeline env maxElemsToParse charThreshold
                  htmlSource uri = .ok content := by
                simp [runPipeline, newReadability, parseArticle, hempty, hbody,
                  hmax, hgrab]
              rw [hrun]
              simp [Except.isOk, Except.toBool, hempty, hbody, hmax, hz]

/-- A trivial pipeline environment whose extraction always yields 600
characters. -/
def sampleEnv : PipelineEnv Unit Unit where
  parseDoc := fun _ _ => ()
  getBody := fun _ => some ()
  countAllElements := fun _ => 3
  extract := fun _ _ => ((), 600)

/-- C5, witness: on the sample environment none of the four error cases
holds, so parsing succeeds. -/
theorem c5_parse_error_cases_witness :
    (runPipeline sampleEnv 0 500 "<html/>" "u").isOk = true := by
  have h := c5_parse_error_cases sampleEnv 0 500 "<html/>" "u" (by decide)
  by_contra hc
  have hfalse : (runPipeline sampleEnv 0 500 "<html/>" "u").isOk = false := by
    cases hv : (runPipeline sampleEnv 0 500 "<html/>" "u").isOk
    · rfl
    · exact absurd hv hc
  have := h.mp hfalse
  revert this
  decide

/-! ## Conditional cleaning (cleanConditionally, readability.go)

The removal predicate is a function of the candidate node's subtree and of
its ancestor chain (nearest first), which carries the data-table marks set
by markDataTables.  Float64 arithmetic is modelled in ℚ; the source's
division of a positive number by zero (which in Go compares as +Inf) only
arises in the list-ratio test and is modelled by goRatioGT. -/

/-- num/den > t under Go float semantics: a zero denominator yields NaN
(for num = 0, comparing false) or +Inf (for num > 0, comparing true). -/
def goRatioGT (num den : Nat) (t : ℚ) : Bool :=
  if den = 0 then decide (0 < num) else decide (t < (num : ℚ) / (den : ℚ))

/-- getCharCount(n, ","): pieces of the comma-split minus one, i.e. the
number of ASCII commas in the normalized inner text. -/
def getCharCountComma (n : TNode) : Nat :=
  ((getInnerText n true).data.filter fun c => c = ',').length

/-- getTextDensity: byte length of the inner text of the given tags over
the byte length of the node's inner text. -/
def getTextDensity (n : TNode) (tags : List String) : ℚ :=
  let textLength := byteLen (getInnerText n true)
  if textLength = 0 then 0
  else
    let childrenLength :=
      ((n.getAllNodesWithTag tags).map fun c => byteLen (getInnerText c true)).sum
    (childrenLength : ℚ) / (textLength : ℚ)

/-- The `hashUrl` regexp: a hash followed by at least one (non-newline)
character. -/
def hashUrlMatch (href : String) : Bool :=
  match href.data with
  | '#' :: c :: _ => c ≠ '\n'
  | _ => false

/-- getLinkDensity: rune length of anchor text (fragment links weighted
0.3) over rune length of the node text. -/
def getLinkDensity (n : TNode) : ℚ :=
  let textLength := runeLen (getInnerText n true)
  if textLength = 0 then 0
  else
    let linkLength :=
      ((n.getElementsByTagName "a").map fun a =>
        let href := a.getAttribute "href"
        let coefficient : ℚ := if href ≠ "" && hashUrlMatch href then 3 / 10 else 1
        (runeLen (getInnerText a true) : ℚ) * coefficient).sum
    linkLength / (textLength : ℚ)

def strStartsWith (s pre : String) : Bool := charsStartWith s.data pre.data

def strEndsWith (s suf : String) : Bool :=
  charsStartWith s.data.reverse suf.data.reverse

/-- The `negative` regexp: literal alternatives plus the anchored `hid`
variants. -/
def negativePatternMatch (s : String) : Bool :=
  let t := lowerStr s
  ["-ad-", "hidden", "banner", "combx", "comment", "com-", "contact", "foot",
    "footer", "footnote", "gdpr", "masthead", "media", "meta", "outbrain",
    "promo", "related", "scroll", "share", "shoutbox", "sidebar",
    "skyscraper", "sponsor", "shopping", "tags", "tool", "widget"].any
      (fun pat => containsSub t pat) ||
  t = "hid" || strEndsWith t " hid" || containsSub t " hid " ||
  strStartsWith t "hid "

/-- The `positive` regexp: literal alternatives. -/
def positivePatternMatch (s : String) : Bool :=
  let t := lowerStr s
  ["article", "body", "content", "entry", "hentry", "h-entry", "main",
    "page", "pagination", "post", "text", "blog", "story"].any
      fun pat => containsSub t pat

/-- getClassWeight: ±25 for the class and for the id, only with
WEIGHT_CLASSES active. -/
def getClassWeight (flags : Nat) (n : TNode) : Int :=
  if !flagIsActive flags flagWeightClasses then 0
  else
    (if n.className ≠ "" then
      (if negativePatternMatch n.className then (-25 : Int) else 0) +
        (if positivePatternMatch n.className then 25 else 0)
    else 0) +
    (if n.idAttr ≠ "" then
      (if negativePatternMatch n.idAttr then (-25 : Int) else 0) +
        (if positivePatternMatch n.idAttr then 25 else 0)
    else 0)

/-- hasAncestorTag over a nearest-first ancestor list: the source tests
ancestors at depths 0..maxDepth (one more than maxDepth of them) when
maxDepth > 0, and all of them otherwise. -/
def hasAncestorTagAnc (ancestors : List TNode) (tag : String) (maxDepth : Int)
    (filterFn : TNode → Bool) : Bool :=
  (if 0 < maxDepth then ancestors.take (maxDepth.toNat + 1) else ancestors).any
    fun a => a.tagName = upperStr tag && filterFn a

/-- The domain alternatives of the `videos` regexp. -/
def videoDomains : List String :=
  ["dailymotion.com", "youtube.com", "youtube-nocookie.com",
   "player.vimeo.com", "v.qq.com", "archive.org", "upload.wikimedia.org",
   "player.twitch.tv"]

/-- allowedVideoRegex (the `videos` regexp): two slashes, an optional
www dot, then one of the whitelisted hosts. -/
def matchesVideoRegex (s : String) : Bool :=
  let t := lowerStr s
  videoDomains.any fun d =>
    containsSub t ("//" ++ d) || containsSub t ("//www." ++ d)

/-- Does some object/embed/iframe descendant carry an attribute matching
the video whitelist?  (The source's extra innerHTML check for
TagName == "object" compares the lowercase literal against the uppercase
TagName and never fires.) -/
def hasVideoEmbed (n : TNode) : Bool :=
  (n.getAllNodesWithTag ["object", "embed", "iframe"]).any fun e =>
    match e with
    | .elem _ attrs _ _ => attrs.any fun a => matchesVideoRegex a.2
    | .text _ => false

def isDataTableCheck (t : TNode) : Bool := t.dataTable = some true

/-- Total inner-text byte length of the ul/ol descendants. -/
def listTextLength (n : TNode) : Nat :=
  ((n.getAllNodesWithTag ["ul", "ol"]).map fun l =>
    byteLen (getInnerText l true)).sum

/-- isList as computed at the top of the filter: the tag is ul/ol, or the
inner lists carry more than 90% of the text. -/
def codeIsList (tag : String) (n : TNode) : Bool :=
  if !(tag = "ul" || tag = "ol") then
    goRatioGT (listTextLength n) (byteLen (getInnerText n true)) (9 / 10)
  else true

/-- The haveToRemove disjunction of the filter, verbatim from the source
(float comparisons carried out in ℚ). -/
def codeHaveToRemove (flags : Nat) (tag : String) (ancestors : List TNode)
    (n : TNode) : Bool :=
  let isList := codeIsList tag n
  let weight := getClassWeight flags n
  let p := (n.getElementsByTagName "p").length
  let img := (n.getElementsByTagName "img").length
  let li : Int := ((n.getElementsByTagName "li").length : Int) - 100
  let inputCount := (n.getElementsByTagName "input").length
  let headingDensity := getTextDensity n ["h1", "h2", "h3", "h4", "h5", "h6"]
  let embedCount := (n.getAllNodesWithTag ["object", "embed", "iframe"]).length
  let linkDensity := getLinkDensity n
  let contentLength := runeLen (getInnerText n true)
  (decide (1 < img) && decide ((p : ℚ) / (img : ℚ) < 1 / 2) &&
    !hasAncestorTagAnc ancestors "figure" 3 (fun _ => true)) ||
  (!isList && decide ((p : Int) < li)) ||
  decide (p / 3 < inputCount) ||
  (!isList && decide (headingDensity < 9 / 10) &&
    decide (contentLength < 25) &&
    (decide (img = 0) || decide (2 < img)) &&
    !hasAncestorTagAnc ancestors "figure" 3 (fun _ => true)) ||
  (!isList && decide (weight < 25) && decide (1 / 5 < linkDensity)) ||
  (decide (25 ≤ weight) && decide (1 / 2 < linkDensity)) ||
  ((decide (embedCount = 1) && decide (contentLength < 75)) ||
    decide (1 < embedCount))

/-- The removal decision of cleanConditionally's filter function,
translated statement by statement from the source (the counts feeding
haveToRemove are factored into codeHaveToRemove; they are pure, so
hoisting them across the early returns preserves the result). -/
def shouldRemoveConditionally (flags : Nat) (tag : String)
    (ancestors : List TNode) (n : TNode) : Bool :=
  if tag = "table" && isDataTableCheck n then false
  else if hasAncestorTagAnc ancestors "table" (-1) isDataTableCheck then false
  else if hasAncestorTagAnc ancestors "code" 3 (fun _ => true) then false
  else if getClassWeight flags n + 0 < 0 then true
  else if getCharCountComma n < 10 then
    if hasVideoEmbed n then false
    else
      let haveToRemove := codeHaveToRemove flags tag ancestors n
      if codeIsList tag n && haveToRemove then
        -- Allow simple lists of images to remain in pages: the source
        -- bails out of the exception at the first direct child with more
        -- than one element child, then keeps the list only when the img
        -- and li descendant counts agree.
        if n.elemChildren.any (fun c => 1 < c.elemChildren.length) then
          haveToRemove
        else if (n.getElementsByTagName "img").length
            = (n.getElementsByTagName "li").length then false
        else haveToRemove
      else haveToRemove
  else false

/-- cleanConditionally removes nothing when CLEAN_CONDITIONALLY is off. -/
def cleanConditionallyRemoves (flags : Nat) (tag : String)
    (ancestors : List TNode) (n : TNode) : Bool :=
  flagIsActive flags flagCleanConditionally &&
    shouldRemoveConditionally flags tag ancestors n

/-! Spec-side formulation of the removal conditions of section 4.5.9 of the
specification, with the float comparisons written as integer
inequalities. -/

/-- Ten times the weighted anchor text length of getLinkDensity: fragment
links weigh 3, other links 10. -/
def tenLinkLength (n : TNode) : Nat :=
  ((n.getElementsByTagName "a").map fun a =>
    runeLen (getInnerText a true) *
      (if a.getAttribute "href" ≠ "" && hashUrlMatch (a.getAttribute "href")
        then 3 else 10)).sum

/-- Total inner-text byte length of the h1..h6 descendants. -/
def headingTextLength (n : TNode) : Nat :=
  ((n.getAllNodesWithTag ["h1", "h2", "h3", "h4", "h5", "h6"]).map fun c =>
    byteLen (getInnerText c true)).sum

/-- Modelled from the spec: isList = tag in ul/ol, or the inner lists
carry more than 90% of the text (division-free form). -/
def specIsList (tag : String) (n : TNode) : Bool :=
  tag = "ul" || tag = "ol" ||
    ((decide (byteLen (getInnerText n true) = 0) &&
        decide (0 < listTextLength n)) ||
      decide (9 * byteLen (getInnerText n true) < 10 * listTextLength n))

/-- Modelled from the spec: a figure ancestor within 3 levels. -/
def specFigureAncestor (ancestors : List TNode) : Bool :=
  (ancestors.take 4).any fun a => a.tagName = "FIGURE"

/-- Modelled from the spec exception as the code realizes it: every direct
element child has at most one element child, and the img and li descendant
counts agree. -/
def specListImageException (n : TNode) : Bool :=
  n.elemChildren.all (fun c => c.elemChildren.length ≤ 1) &&
    decide ((n.getElementsByTagName "img").length
      = (n.getElementsByTagName "li").length)

/-- Modelled from the spec: the removal conditions of section 4.5.9 (the
"Remove iff any of" list), in integer form. -/
def specRemovalSignal (flags : Nat) (tag : String) (ancestors : List TNode)
    (n : TNode) : Bool :=
  let p := (n.getElementsByTagName "p").length
  let img := (n.getElementsByTagName "img").length
  let liCount := (n.getElementsByTagName "li").length
  let inputCount := (n.getElementsByTagName "input").length
  let textB := byteLen (getInnerText n true)
  let textR := runeLen (getInnerText n true)
  let isList := specIsList tag n
  let weight := getClassWeight flags n
  let fig := specFigureAncestor ancestors
  let embedCount := (n.getAllNodesWithTag ["object", "embed", "iframe"]).length
  (decide (1 < img) && decide (2 * p < img) && !fig) ||
  (!isList && decide ((p : Int) < (liCount : Int) - 100)) ||
  decide (p / 3 < inputCount) ||
  (!isList &&
    (decide (textB = 0) || decide (10 * headingTextLength n < 9 * textB)) &&
    decide (textR < 25) && (decide (img = 0) || decide (2 < img)) && !fig) ||
  (!isList && decide (weight < 25) && decide (textR ≠ 0) &&
    decide (2 * textR < tenLinkLength n)) ||
  (decide (25 ≤ weight) && decide (textR ≠ 0) &&
    decide (5 * textR < tenLinkLength n)) ||
  ((decide (embedCount = 1) && decide (textR < 75)) || decide (1 < embedCount))

theorem figureAncestor_eq (ancestors : List TNode) :
    hasAncestorTagAnc ancestors "figure" 3 (fun _ => true)
      = specFigureAncestor ancestors := by
  unfold hasAncestorTagAnc specFigureAncestor
  rw [if_pos (by norm_num : (0:Int) < 3)]
  rw [show ((3:Int).toNat + 1) = 4 from rfl]
  rw [show upperStr "figure" = "FIGURE" from by decide]
  simp

theorem goRatioGT_nine_tenths (num den : Nat) :
    goRatioGT num den (9 / 10) =
      ((decide (den = 0) && decide (0 < num)) ||
        decide (9 * den < 10 * num)) := by
  unfold goRatioGT
  by_cases hd : den = 0
  · subst hd
    rw [if_pos rfl]
    rw [show decide (9 * 0 < 10 * num) = decide (0 < num) from
      decide_eq_decide.mpr (by omega)]
    simp
  · rw [if_neg hd]
    have hpos : (0:ℚ) < (den : ℚ) :=
      Nat.cast_pos.mpr (Nat.pos_of_ne_zero hd)
    have hiff : ((9:ℚ) / 10 < (num : ℚ) / (den : ℚ)) ↔ 9 * den < 10 * num := by
      rw [div_lt_div_iff₀ (by norm_num) hpos]
      norm_cast
      omega
    rw [decide_eq_decide.mpr hiff]
    · simp [hd]
    all_goals infer_instance

theorem linkLength_sum (L : List TNode) :
    (L.map fun a => (runeLen (getInnerText a true) : ℚ) *
      (if a.getAttribute "href" ≠ "" && hashUrlMatch (a.getAttribute "href")
        then 3 / 10 else 1)).sum
      = ((L.map fun a => runeLen (getInnerText a true) *
          (if a.getAttribute "href" ≠ "" && hashUrlMatch (a.getAttribute "href")
            then 3 else 10)).sum : ℚ) / 10 := by
  induction L with
  | nil => simp
  | cons a L ih =>
      simp only [List.map_cons, List.sum_cons, ih]
      cases hb : (a.getAttribute "href" ≠ ""
          && hashUrlMatch (a.getAttribute "href")) with
      | false =>
          simp only [hb, Bool.false_eq_true, if_false]
          push_cast
          ring
      | true =>
          simp only [hb, if_true]
          push_cast
          ring

theorem getLinkDensity_eq (n : TNode) :
    getLinkDensity n =
      if runeLen (getInnerText n true) = 0 then 0
      else (tenLinkLength n : ℚ) / (10 * runeLen (getInnerText n true)) := by
  unfold getLinkDensity tenLinkLength
  by_cases h : runeLen (getInnerText n true) = 0
  · simp [h]
  · rw [if_neg h, if_neg h, linkLength_sum, div_div]

theorem ld_gt_fifth (n : TNode) :
    decide ((1:ℚ) / 5 < getLinkDensity n) =
      (decide (runeLen (getInnerText n true) ≠ 0) &&
        decide (2 * runeLen (getInnerText n true) < tenLinkLength n)) := by
  rw [getLinkDensity_eq]
  by_cases h : runeLen (getInnerText n true) = 0
  · rw [if_pos h]
    simp [h]
  · rw [if_neg h]
    have hpos : (0:ℚ) < 10 * (runeLen (getInnerText n true) : ℚ) := by
      have := Nat.cast_pos (α := ℚ) |>.mpr (Nat.pos_of_ne_zero h)
      linarith
    have hiff : ((1:ℚ) / 5 <
        (tenLinkLength n : ℚ) / (10 * runeLen (getInnerText n true))) ↔
        2 * runeLen (getInnerText n true) < tenLinkLength n := by
      rw [div_lt_div_iff₀ (by norm_num) hpos]
      norm_cast
      omega
    rw [decide_eq_decide.mpr hiff]
    · simp [h]
    all_goals infer_instance

theorem ld_gt_half (n : TNode) :
    decide ((1:ℚ) / 2 < getLinkDensity n) =
      (decide (runeLen (getInnerText n true) ≠ 0) &&
        decide (5 * runeLen (getInnerText n true) < tenLinkLength n)) := by
  rw [getLinkDensity_eq]
  by_cases h : runeLen (getInnerText n true) = 0
  · rw [if_pos h]
    simp [h]
  · rw [if_neg h]
    have hpos : (0:ℚ) < 10 * (runeLen (getInnerText n true) : ℚ) := by
      have := Nat.cast_pos (α := ℚ) |>.mpr (Nat.pos_of_ne_zero h)
      linarith
    have hiff : ((1:ℚ) / 2 <
        (tenLinkLength n : ℚ) / (10 * runeLen (getInnerText n true))) ↔
        5 * runeLen (getInnerText n true) < tenLinkLength n := by
      rw [div_lt_div_iff₀ (by norm_num) hpos]
      norm_cast
      omega
    rw [decide_eq_decide.mpr hiff]
    · simp [h]
    all_goals infer_instance

theorem hd_lt_nine_tenths (n : TNode) :
    decide (getTextDensity n ["h1", "h2", "h3", "h4", "h5", "h6"] < 9 / 10) =
      (decide (byteLen (getInnerText n true) = 0) ||
        decide (10 * headingTextLength n < 9 * byteLen (getInnerText n true))) := by
  unfold getTextDensity headingTextLength
  by_cases h : byteLen (getInnerText n true) = 0
  · rw [if_pos h]
    rw [decide_eq_true (by norm_num : (0:ℚ) < 9 / 10)]
    simp [h]
  · rw [if_neg h]
    have hpos : (0:ℚ) < (byteLen (getInnerText n true) : ℚ) :=
      Nat.cast_pos.mpr (Nat.pos_of_ne_zero h)
    have hiff : ((((n.getAllNodesWithTag
          ["h1", "h2", "h3", "h4", "h5", "h6"]).map fun c =>
            byteLen (getInnerText c true)).sum : ℚ) /
          (byteLen (getInnerText n true) : ℚ) < 9 / 10) ↔
        10 * ((n.getAllNodesWithTag
          ["h1", "h2", "h3", "h4", "h5", "h6"]).map fun c =>
            byteLen (getInnerText c true)).sum <
          9 * byteLen (getInnerText n true) := by
      rw [div_lt_div_iff₀ hpos (by norm_num)]
      norm_cast
      omega
    rw [decide_eq_decide.mpr hiff]
    · simp [h]
    all_goals infer_instance

theorem pimg_lt_half (p img : Nat) (h : 1 < img) :
    decide ((p : ℚ) / (img : ℚ) < 1 / 2) = decide (2 * p < img) := by
  have hpos : (0:ℚ) < (img : ℚ) := Nat.cast_pos.mpr (by omega)
  apply decide_eq_decide.mpr
  rw [div_lt_div_iff₀ hpos (by norm_num)]
  norm_cast
  omega

theorem codeIsList_eq_spec (tag : String) (n : TNode) :
    codeIsList tag n = specIsList tag n := by
  unfold codeIsList specIsList
  by_cases hu : tag = "ul"
  · simp [hu]
  · by_cases ho : tag = "ol"
    · simp [ho]
    · simp only [hu, ho, decide_False, Bool.or_self, Bool.not_false,
        if_true, Bool.false_or]
      exact goRatioGT_nine_tenths _ _

theorem codeHaveToRemove_eq_spec (flags : Nat) (tag : String)
    (ancestors : List TNode) (n : TNode) :
    codeHaveToRemove flags tag ancestors n =
      specRemovalSignal flags tag ancestors n := by
  unfold codeHaveToRemove specRemovalSignal
  simp only [figureAncestor_eq, codeIsList_eq_spec, hd_lt_nine_tenths,
    ld_gt_fifth, ld_gt_half]
  by_cases himg : 1 < (n.getElementsByTagName "img").length
  · rw [pimg_lt_half _ _ himg]
    simp [Bool.and_assoc, Bool.or_assoc]
  · simp [himg, Bool.and_assoc, Bool.or_assoc]

theorem any_gt_one_eq_false_iff (l : List TNode) :
    (l.any fun c => 1 < c.elemChildren.length) = false ↔
      (l.all fun c => c.elemChildren.length ≤ 1) = true := by
  rw [List.any_eq_false, List.all_eq_true]
  constructor
  · intro h c hc
    have h2 := h c hc
    simp only [decide_eq_true_eq] at h2 ⊢
    omega
  · intro h c hc
    have h2 := h c hc
    simp only [decide_eq_true_eq] at h2 ⊢
    omega

/-- C3, amended: with CLEAN_CONDITIONALLY on, for a node of the target tag
that is not a marked data table, has no data-table ancestor, no code
ancestor within 3 levels, and no embed matching the video whitelist, the
node is removed iff its class weight is negative, or its text has fewer
than 10 commas and one of the section-4.5.9 conditions holds and the
image-list exception (every direct element child with at most one element
child and as many img as li descendants) does not apply. -/
theorem c3_cleanConditionally (flags : Nat) (tag : String)
    (ancestors : List TNode) (n : TNode)
    (hcc : flagIsActive flags flagCleanConditionally = true)
    (hdt : (tag = "table" && isDataTableCheck n) = false)
    (htab : hasAncestorTagAnc ancestors "table" (-1) isDataTableCheck = false)
    (hcode : hasAncestorTagAnc ancestors "code" 3 (fun _ => true) = false)
    (hvid : hasVideoEmbed n = false) :
    cleanConditionallyRemoves flags tag ancestors n = true ↔
      (getClassWeight flags n < 0 ∨
        (getCharCountComma n < 10 ∧
          specRemovalSignal flags tag ancestors n = true ∧
          ¬ (specIsList tag n = true ∧ specListImageException n = true))) := by
  unfold cleanConditionallyRemoves shouldRemoveConditionally
  rw [hcc, hdt, htab, hcode, hvid]
  simp only [Bool.false_eq_true, if_false, Bool.true_and]
  by_cases hw : getClassWeight flags n + 0 < 0
  · rw [if_pos hw]
    constructor
    · intro _
      exact Or.inl (by omega)
    · intro _
      rfl
  · rw [if_neg hw]
    have hw2 : ¬ getClassWeight flags n < 0 := by omega
    by_cases hcm : getCharCountComma n < 10
    · rw [if_pos hcm]
      rw [codeHaveToRemove_eq_spec, codeIsList_eq_spec]
      cases hs : specRemovalSignal flags tag ancestors n with
      | false => simp [hw2]
      | true =>
          cases hL : specIsList tag n with
          | false => simp [hcm]
          | true =>
              cases hany : n.elemChildren.any
                  fun c => 1 < c.elemChildren.length with
              | true =>
                  have hall : (n.elemChildren.all
                      fun c => c.elemChildren.length ≤ 1) = false := by
                    cases hall2 : n.elemChildren.all
                        fun c => c.elemChildren.length ≤ 1 with
                    | false => rfl
                    | true =>
                        rw [← any_gt_one_eq_false_iff] at hall2
                        rw [hany] at hall2
                        cases hall2
                  simp [hcm, specListImageException, hall]
              | false =>
                  have hall := (any_gt_one_eq_false_iff _).mp hany
                  by_cases himgli : (n.getElementsByTagName "img").length
                      = (n.getElementsByTagName "li").length
                  · rw [if_pos himgli]
                    simp [hw2, specListImageException, hall, himgli]
                  · rw [if_neg himgli]
                    simp [hcm, specListImageException, hall, himgli]
    · rw [if_neg hcm]
      constructor
      · intro h
        exact absurd h (by simp)
      · rintro (h | ⟨h, _⟩)
        · exact absurd h hw2
        · exact absurd h hcm

/-- A div with a negative class and no other removal signals. -/
def commentDiv : TNode :=
  TNode.elem "DIV" [("class", "comment")] none
    [TNode.text "some plain text without any comma here"]

/-- C3, counterexample: the claim's removal conditions are not the only
way a node is removed: this div has a negative class weight and is removed
by the code although none of the listed conditions holds. -/
theorem c3_counterexample :
    cleanConditionallyRemoves 7 "div" [] commentDiv = true ∧
    specRemovalSignal 7 "div" [] commentDiv = false := by
  decide

/-- C3, witness: the amended characterization applied to the concrete
comment div with all preconditions discharged. -/
theorem c3_cleanConditionally_witness :
    cleanConditionallyRemoves 7 "div" [] commentDiv = true ↔
      (getClassWeight 7 commentDiv < 0 ∨
        (getCharCountComma commentDiv < 10 ∧
          specRemovalSignal 7 "div" [] commentDiv = true ∧
          ¬ (specIsList "div" commentDiv = true ∧
            specListImageException commentDiv = true))) :=
  c3_cleanConditionally 7 "div" [] commentDiv (by decide) (by decide)
    (by decide) (by decide) (by decide)

/-! ## IsProbablyReaderable (readerable.go)

The pre-flight classifier runs on the golang.org/x/net/html tree, which is
modelled by its own node type; tags are lowercase there and `attr` returns
the first matching attribute.  math.Sqrt is abstracted as a parameter
`sqrtFn` (float64 square roots of perfect squares are exact). -/

inductive HNode where
  | elem (tag : String) (attrs : List (String × String)) (kids : List HNode)
  | text (s : String)

mutual

def decEqHNode : (a b : HNode) → Decidable (a = b)
  | .text s, .text t =>
      if h : s = t then .isTrue (by rw [h]) else .isFalse (by simp [h])
  | .text _, .elem _ _ _ => .isFalse (by simp)
  | .elem _ _ _, .text _ => .isFalse (by simp)
  | .elem t1 a1 k1, .elem t2 a2 k2 =>
      if h : t1 = t2 ∧ a1 = a2 then
        match decEqHNodeList k1 k2 with
        | .isTrue hk => .isTrue (by rw [h.1, h.2, hk])
        | .isFalse hk => .isFalse (by simp [hk])
      else .isFalse (by simp; tauto)

def decEqHNodeList : (a b : List HNode) → Decidable (a = b)
  | [], [] => .isTrue rfl
  | [], _ :: _ => .isFalse (by simp)
  | _ :: _, [] => .isFalse (by simp)
  | a :: l, b :: m =>
      match decEqHNode a b, decEqHNodeList l m with
      | .isTrue h, .isTrue h2 => .isTrue (by rw [h, h2])
      | .isFalse h, _ => .isFalse (by simp [h])
      | _, .isFalse h => .isFalse (by simp [h])

end

instance : DecidableEq HNode := decEqHNode

namespace HNode

def tag : HNode → String
  | elem t _ _ => t
  | text _ => ""

/-- util.go attr: the first matching attribute, "" when missing. -/
def attrH (n : HNode) (name : String) : String :=
  match n with
  | elem _ attrs _ =>
      match attrs.find? fun a => a.1 = name with
      | some a => a.2
      | none => ""
  | text _ => ""

mutual

/-- util.go textContent: concatenation of all text descendants. -/
def htextContent : HNode → String
  | text s => s
  | elem _ _ kids => htextContentList kids

def htextContentList : List HNode → String
  | [] => ""
  | k :: rest => htextContent k ++ htextContentList rest

end

end HNode

/-- Go strings.Split (sep non-empty in the engine's only use); fuel-driven
scan, with fuel exceeding the string length. -/
def goSplitAux (sep : List Char) : Nat → List Char → List Char →
    List (List Char)
  | 0, s, cur => [cur.reverse ++ s]
  | fuel + 1, s, cur =>
      match s with
      | [] => [cur.reverse]
      | c :: rest =>
          if charsStartWith (c :: rest) sep && !sep.isEmpty then
            cur.reverse ::
              goSplitAux sep fuel (List.drop sep.length (c :: rest)) []
          else goSplitAux sep fuel rest (c :: cur)

def goSplit (s sep : String) : List String :=
  if sep = "" then s.data.map fun c => [c].asString
  else (goSplitAux sep.data (s.data.length + 1) s.data []).map List.asString

/-- isNodeVisible as written in readerable.go, including the swapped
arguments of strings.Split (the string ";" is split by the style value)
and the presence-by-value test of the hidden attribute. -/
def isNodeVisible (n : HNode) : Bool :=
  let style := n.attrH "style"
  (style = "" || !((goSplit ";" style).contains "display=none")) &&
  (style = "" || !((goSplit ";" style).contains "visibility=hidden")) &&
  n.attrH "hidden" = "" &&
  (n.attrH "aria-hidden" = "" || n.attrH "aria-hidden" ≠ "true" ||
    (n.attrH "class" ≠ "" && containsSub (n.attrH "class") "fallback-image"))

/-- The `unlikelyCandidates` regexp: literal alternatives. -/
def unlikelyCandidatesMatch (s : String) : Bool :=
  let t := lowerStr s
  ["-ad-", "ai2html", "banner", "breadcrumbs", "combx", "comment",
   "community", "cover-wrap", "disqus", "extra", "footer", "gdpr", "header",
   "legends", "menu", "related", "remark", "replies", "rss", "shoutbox",
   "sidebar", "skyscraper", "social", "sponsor", "supplemental", "ad-break",
   "agegate", "pagination", "pager", "popup", "yom-remote"].any
    fun pat => containsSub t pat

/-- The `okMaybeItsACandidate` regexp: literal alternatives. -/
def okMaybeMatch (s : String) : Bool :=
  let t := lowerStr s
  ["and", "article", "body", "column", "content", "main", "shadow"].any
    fun pat => containsSub t pat

mutual

/-- querySelectorAll(doc, "p, pre, article"): the matching strict
descendants in document order, each paired with whether one of its
ancestors is an li (needed for the li-p selector later).  `liAbove` is
that flag for the current node. -/
def collectCands (liAbove : Bool) : HNode → List (HNode × Bool)
  | .text _ => []
  | .elem tag _ kids =>
      collectCandsList (liAbove || tag = "li") kids

def collectCandsList (liHere : Bool) : List HNode → List (HNode × Bool)
  | [] => []
  | c :: rest =>
      (if c.tag = "p" || c.tag = "pre" || c.tag = "article" then [(c, liHere)]
        else []) ++ collectCands liHere c ++ collectCandsList liHere rest

end

mutual

/-- The parents of the "div > br" matches, one entry per br node (the
source appends node.Parent for every br, without deduplication), each with
the parent's ancestor-li flag. -/
def collectBrParents (liAbove : Bool) : HNode → List (HNode × Bool)
  | .text _ => []
  | .elem tag attrs kids =>
      collectBrParentsList (HNode.elem tag attrs kids) liAbove
        (liAbove || tag = "li") kids

def collectBrParentsList (parent : HNode) (liAboveParent liHere : Bool) :
    List HNode → List (HNode × Bool)
  | [] => []
  | c :: rest =>
      (if c.tag = "br" && parent.tag = "div" then [(parent, liAboveParent)]
        else []) ++ collectBrParents liHere c ++
        collectBrParentsList parent liAboveParent liHere rest

end

mutual

/-- matches(n, "li p") via cascadia.Query: some strict descendant of n is
a p element with an li ancestor (anywhere up the tree; `liSeen` carries
the information about the ancestors of the current node). -/
def hasDescendantPInLi (liSeen : Bool) : HNode → Bool
  | .text _ => false
  | .elem tag _ kids => hasDescendantPInLiList (liSeen || tag = "li") kids

def hasDescendantPInLiList (liHere : Bool) : List HNode → Bool
  | [] => false
  | c :: rest =>
      (c.tag = "p" && liHere) || hasDescendantPInLi liHere c ||
        hasDescendantPInLiList liHere rest

end

/-- The scoring fold of IsProbablyReaderable (the ContainsFunc callback
with its score accumulator). -/
def readerableLoop (sqrtFn : Nat → ℚ) (minContentLength : Nat)
    (minScore : ℚ) (visibilityChecker : HNode → Bool) :
    List (HNode × Bool) → ℚ → Bool
  | [], _ => false
  | (n, liAbove) :: rest, score =>
      if !visibilityChecker n then
        readerableLoop sqrtFn minContentLength minScore visibilityChecker
          rest score
      else
        let matchString := n.attrH "class" ++ " " ++ n.attrH "id"
        if unlikelyCandidatesMatch matchString && !okMaybeMatch matchString then
          readerableLoop sqrtFn minContentLength minScore visibilityChecker
            rest score
        else if hasDescendantPInLi liAbove n then
          readerableLoop sqrtFn minContentLength minScore visibilityChecker
            rest score
        else
          let textContentLength := byteLen (goTrimSpace n.htextContent)
          if textContentLength < minContentLength then
            readerableLoop sqrtFn minContentLength minScore visibilityChecker
              rest score
          else
            let score2 := score + sqrtFn (textContentLength - minContentLength)
            if minScore < score2 then true
            else
              readerableLoop sqrtFn minContentLength minScore
                visibilityChecker rest score2

/-- IsProbablyReaderable: p/pre/article candidates, then one parent entry
per div > br match. -/
def isProbablyReaderableModel (sqrtFn : Nat → ℚ) (minContentLength : Nat)
    (minScore : ℚ) (visibilityChecker : HNode → Bool) (doc : HNode) : Bool :=
  readerableLoop sqrtFn minContentLength minScore visibilityChecker
    (collectCands false doc ++ collectBrParents false doc) 0

/-- First-occurrence deduplication. -/
def dedupFirstAux {β : Type} [DecidableEq β] (seen : List β) :
    List β → List β
  | [] => []
  | x :: xs =>
      if seen.contains x then dedupFirstAux seen xs
      else x :: dedupFirstAux (x :: seen) xs

/-- Modelled from the spec: the candidate list with each div counted once
(the upstream library collects the parents into a Set), and with the
li-p test applied to the candidate itself ("isn't a p inside a li"). -/
def isProbablyReaderableSpec (sqrtFn : Nat → ℚ) (minContentLength : Nat)
    (minScore : ℚ) (visibilityChecker : HNode → Bool) (doc : HNode) : Bool :=
  go (collectCands false doc ++ dedupFirstAux [] (collectBrParents false doc)) 0
where
  go : List (HNode × Bool) → ℚ → Bool
    | [], _ => false
    | (n, liAbove) :: rest, score =>
        if !visibilityChecker n then go rest score
        else
          let matchString := n.attrH "class" ++ " " ++ n.attrH "id"
          if unlikelyCandidatesMatch matchString && !okMaybeMatch matchString
            then go rest score
          else if n.tag = "p" && liAbove then go rest score
          else
            let textContentLength := byteLen (goTrimSpace n.htextContent)
            if textContentLength < minContentLength then go rest score
            else
              let score2 :=
                score + sqrtFn (textContentLength - minContentLength)
              if minScore < score2 then true else go rest score2

/-- math.Sqrt restricted to the one value this document exercises:
sqrt(4) = 2, which float64 computes exactly. -/
def sqrtAt4 : Nat → ℚ := fun m => if m = 4 then 2 else 0

/-- A div holding 5 characters of text, a br, 3 more characters, and
another br (8 bytes of trimmed text in total). -/
def brDiv : HNode :=
  HNode.elem "div" []
    [HNode.text "abcde",
     HNode.elem "br" [] [],
     HNode.text "fgh",
     HNode.elem "br" [] []]

/-- The parsed tree of a document whose body is brDiv. -/
def brDoc : HNode :=
  HNode.elem "#document" []
    [HNode.elem "html" []
      [HNode.elem "head" [] [],
       HNode.elem "body" [] [brDiv]]]

set_option maxRecDepth 8000

/-- C7: the claim counts each div with a direct br child once; the code
appends the div once per br child.  With minContentLength 4 and minScore 2
(both caller options; the double counting is independent of their values),
this document's single div contributes sqrt(8 - 4) = 2 twice, so the code
returns true, while the claimed semantics accumulates a score of 2 ≤ 2
only once and yields false. -/
theorem c7_div_counted_per_br :
    isProbablyReaderableModel sqrtAt4 4 2 isNodeVisible brDoc = true ∧
    isProbablyReaderableSpec sqrtAt4 4 2 isNodeVisible brDoc = false := by
  have hlist : collectCands false brDoc ++ collectBrParents false brDoc
      = [(brDiv, false), (brDiv, false)] := by decide
  have hlist2 : collectCands false brDoc ++
      dedupFirstAux [] (collectBrParents false brDoc) = [(brDiv, false)] := by
    decide
  have hvis : isNodeVisible brDiv = true := by decide
  have hmatch : (unlikelyCandidatesMatch
      (brDiv.attrH "class" ++ " " ++ brDiv.attrH "id") &&
      !okMaybeMatch (brDiv.attrH "class" ++ " " ++ brDiv.attrH "id")) = false := by
    decide
  have hlip : hasDescendantPInLi false brDiv = false := by decide
  have hlen : byteLen (goTrimSpace brDiv.htextContent) = 8 := by decide
  have hsq : sqrtAt4 (8 - 4) = 2 := by norm_num [sqrtAt4]
  constructor
  · rw [isProbablyReaderableModel, hlist]
    rw [readerableLoop]
    simp only [hvis, hmatch, hlip, hlen, hsq, Bool.not_true,
      Bool.false_eq_true, if_false, Bool.and_eq_true, decide_eq_true_eq]
    rw [if_neg (by norm_num), if_neg (by norm_num)]
    rw [readerableLoop]
    simp only [hvis, hmatch, hlip, hlen, hsq, Bool.not_true,
      Bool.false_eq_true, if_false]
    rw [if_neg (by norm_num), if_pos (by norm_num)]
  · rw [isProbablyReaderableSpec, hlist2]
    rw [isProbablyReaderableSpec.go]
    simp only [hvis, hmatch, hlen, hsq, Bool.not_true, Bool.false_eq_true,
      if_false, Bool.and_false]
    rw [if_neg (by norm_num), if_neg (by norm_num)]
    rfl

/-! ### C8: DOM mutations (domparser.go appendChild / removeChild / replaceChild)

The parser's node type uses pointer links, so the embedding is an arena:
a store mapping identifiers to node records.  Only the fields read or
written by the three mutation methods are modelled.  Each Go assignment
becomes one field update on the store, performed in source order. -/

/-- One node record of the arena: the fields of domparser.go's node struct
that the mutation methods touch (NodeType is collapsed to the Boolean
isElem, since only the comparison with elementNode occurs). -/
structure DNode where
  isElem : Bool
  parent : Option Nat
  childNodes : List Nat
  children : List Nat
  prevSib : Option Nat
  nextSib : Option Nat
  prevElem : Option Nat
  nextElem : Option Nat

/-- The arena: the identifiers making up the document (dom) and the store.
Identifiers outside dom are scratch and carry no invariant. -/
structure Dom where
  dom : List Nat
  nodes : Nat → DNode

/-- Update the record of one identifier. -/
def updNode (d : Dom) (i : Nat) (f : DNode → DNode) : Dom :=
  ⟨d.dom, fun j => if j = i then f (d.nodes j) else d.nodes j⟩

/-- Go assignment x.ParentNode = v. -/
def setParent (d : Dom) (i : Nat) (v : Option Nat) : Dom :=
  updNode d i (fun n => {n with parent := v})

/-- Go assignment x.ChildNodes = l. -/
def setChildNodes (d : Dom) (i : Nat) (l : List Nat) : Dom :=
  updNode d i (fun n => {n with childNodes := l})

/-- Go assignment x.Children = l. -/
def setChildren (d : Dom) (i : Nat) (l : List Nat) : Dom :=
  updNode d i (fun n => {n with children := l})

/-- Go assignment t.PreviousSibling = v, where t may be nil (no-op then). -/
def setPrevSibO (d : Dom) (t : Option Nat) (v : Option Nat) : Dom :=
  match t with
  | none => d
  | some i => updNode d i (fun n => {n with prevSib := v})

/-- Go assignment t.NextSibling = v, where t may be nil (no-op then). -/
def setNextSibO (d : Dom) (t : Option Nat) (v : Option Nat) : Dom :=
  match t with
  | none => d
  | some i => updNode d i (fun n => {n with nextSib := v})

/-- Go assignment t.PreviousElementSibling = v, where t may be nil. -/
def setPrevElemO (d : Dom) (t : Option Nat) (v : Option Nat) : Dom :=
  match t with
  | none => d
  | some i => updNode d i (fun n => {n with prevElem := v})

/-- Go assignment t.NextElementSibling = v, where t may be nil. -/
def setNextElemO (d : Dom) (t : Option Nat) (v : Option Nat) : Dom :=
  match t with
  | none => d
  | some i => updNode d i (fun n => {n with nextElem := v})

@[simp] lemma setParent_dom (d : Dom) (i : Nat) (v : Option Nat) :
    (setParent d i v).dom = d.dom := rfl

@[simp] lemma setChildNodes_dom (d : Dom) (i : Nat) (l : List Nat) :
    (setChildNodes d i l).dom = d.dom := rfl

@[simp] lemma setChildren_dom (d : Dom) (i : Nat) (l : List Nat) :
    (setChildren d i l).dom = d.dom := rfl

@[simp] lemma setPrevSibO_dom (d : Dom) (t v : Option Nat) :
    (setPrevSibO d t v).dom = d.dom := by
  cases t <;> rfl

@[simp] lemma setNextSibO_dom (d : Dom) (t v : Option Nat) :
    (setNextSibO d t v).dom = d.dom := by
  cases t <;> rfl

@[simp] lemma setPrevElemO_dom (d : Dom) (t v : Option Nat) :
    (setPrevElemO d t v).dom = d.dom := by
  cases t <;> rfl

@[simp] lemma setNextElemO_dom (d : Dom) (t v : Option Nat) :
    (setNextElemO d t v).dom = d.dom := by
  cases t <;> rfl

@[simp] lemma setParent_isElem (d : Dom) (i : Nat) (v : Option Nat) (j : Nat) :
    ((setParent d i v).nodes j).isElem = (d.nodes j).isElem := by
  simp only [setParent, updNode]; split <;> rfl

@[simp] lemma setParent_childNodes (d : Dom) (i : Nat) (v : Option Nat) (j : Nat) :
    ((setParent d i v).nodes j).childNodes = (d.nodes j).childNodes := by
  simp only [setParent, updNode]; split <;> rfl

@[simp] lemma setParent_children (d : Dom) (i : Nat) (v : Option Nat) (j : Nat) :
    ((setParent d i v).nodes j).children = (d.nodes j).children := by
  simp only [setParent, updNode]; split <;> rfl

@[simp] lemma setParent_prevElem (d : Dom) (i : Nat) (v : Option Nat) (j : Nat) :
    ((setParent d i v).nodes j).prevElem = (d.nodes j).prevElem := by
  simp only [setParent, updNode]; split <;> rfl

@[simp] lemma setParent_nextElem (d : Dom) (i : Nat) (v : Option Nat) (j : Nat) :
    ((setParent d i v).nodes j).nextElem = (d.nodes j).nextElem := by
  simp only [setParent, updNode]; split <;> rfl

@[simp] lemma setParent_parent (d : Dom) (i : Nat) (v : Option Nat) (j : Nat) :
    ((setParent d i v).nodes j).parent = if j = i then v else (d.nodes j).parent := by
  simp only [setParent, updNode]; split <;> rfl

@[simp] lemma setChildNodes_isElem (d : Dom) (i : Nat) (l : List Nat) (j : Nat) :
    ((setChildNodes d i l).nodes j).isElem = (d.nodes j).isElem := by
  simp only [setChildNodes, updNode]; split <;> rfl

@[simp] lemma setChildNodes_childNodes (d : Dom) (i : Nat) (l : List Nat) (j : Nat) :
    ((setChildNodes d i l).nodes j).childNodes
      = if j = i then l else (d.nodes j).childNodes := by
  simp only [setChildNodes, updNode]; split <;> rfl

@[simp] lemma setChildNodes_children (d : Dom) (i : Nat) (l : List Nat) (j : Nat) :
    ((setChildNodes d i l).nodes j).children = (d.nodes j).children := by
  simp only [setChildNodes, updNode]; split <;> rfl

@[simp] lemma setChildNodes_prevElem (d : Dom) (i : Nat) (l : List Nat) (j : Nat) :
    ((setChildNodes d i l).nodes j).prevElem = (d.nodes j).prevElem := by
  simp only [setChildNodes, updNode]; split <;> rfl

@[simp] lemma setChildNodes_nextElem (d : Dom) (i : Nat) (l : List Nat) (j : Nat) :
    ((setChildNodes d i l).nodes j).nextElem = (d.nodes j).nextElem := by
  simp only [setChildNodes, updNode]; split <;> rfl

@[simp] lemma setChildNodes_parent (d : Dom) (i : Nat) (l : List Nat) (j : Nat) :
    ((setChildNodes d i l).nodes j).parent = (d.nodes j).parent := by
  simp only [setChildNodes, updNode]; split <;> rfl

@[simp] lemma setChildren_isElem (d : Dom) (i : Nat) (l : List Nat) (j : Nat) :
    ((setChildren d i l).nodes j).isElem = (d.nodes j).isElem := by
  simp only [setChildren, updNode]; split <;> rfl

@[simp] lemma setChildren_childNodes (d : Dom) (i : Nat) (l : List Nat) (j : Nat) :
    ((setChildren d i l).nodes j).childNodes = (d.nodes j).childNodes := by
  simp only [setChildren, updNode]; split <;> rfl

@[simp] lemma setChildren_children (d : Dom) (i : Nat) (l : List Nat) (j : Nat) :
    ((setChildren d i l).nodes j).children
      = if j = i then l else (d.nodes j).children := by
  simp only [setChildren, updNode]; split <;> rfl

@[simp] lemma setChildren_prevElem (d : Dom) (i : Nat) (l : List Nat) (j : Nat) :
    ((setChildren d i l).nodes j).prevElem = (d.nodes j).prevElem := by
  simp only [setChildren, updNode]; split <;> rfl

@[simp] lemma setChildren_nextElem (d : Dom) (i : Nat) (l : List Nat) (j : Nat) :
    ((setChildren d i l).nodes j).nextElem = (d.nodes j).nextElem := by
  simp only [setChildren, updNode]; split <;> rfl

@[simp] lemma setChildren_parent (d : Dom) (i : Nat) (l : List Nat) (j : Nat) :
    ((setChildren d i l).nodes j).parent = (d.nodes j).parent := by
  simp only [setChildren, updNode]; split <;> rfl

@[simp] lemma setPrevSibO_isElem (d : Dom) (t v : Option Nat) (j : Nat) :
    ((setPrevSibO d t v).nodes j).isElem = (d.nodes j).isElem := by
  cases t with
  | none => rfl
  | some i => simp only [setPrevSibO, updNode]; split <;> rfl

@[simp] lemma setPrevSibO_childNodes (d : Dom) (t v : Option Nat) (j : Nat) :
    ((setPrevSibO d t v).nodes j).childNodes = (d.nodes j).childNodes := by
  cases t with
  | none => rfl
  | some i => simp only [setPrevSibO, updNode]; split <;> rfl

@[simp] lemma setPrevSibO_children (d : Dom) (t v : Option Nat) (j : Nat) :
    ((setPrevSibO d t v).nodes j).children = (d.nodes j).children := by
  cases t with
  | none => rfl
  | some i => simp only [setPrevSibO, updNode]; split <;> rfl

@[simp] lemma setPrevSibO_prevElem (d : Dom) (t v : Option Nat) (j : Nat) :
    ((setPrevSibO d t v).nodes j).prevElem = (d.nodes j).prevElem := by
  cases t with
  | none => rfl
  | some i => simp only [setPrevSibO, updNode]; split <;> rfl

@[simp] lemma setPrevSibO_nextElem (d : Dom) (t v : Option Nat) (j : Nat) :
    ((setPrevSibO d t v).nodes j).nextElem = (d.nodes j).nextElem := by
  cases t with
  | none => rfl
  | some i => simp only [setPrevSibO, updNode]; split <;> rfl

@[simp] lemma setPrevSibO_parent (d : Dom) (t v : Option Nat) (j : Nat) :
    ((setPrevSibO d t v).nodes j).parent = (d.nodes j).parent := by
  cases t with
  | none => rfl
  | some i => simp only [setPrevSibO, updNode]; split <;> rfl

@[simp] lemma setNextSibO_isElem (d : Dom) (t v : Option Nat) (j : Nat) :
    ((setNextSibO d t v).nodes j).isElem = (d.nodes j).isElem := by
  cases t with
  | none => rfl
  | some i => simp only [setNextSibO, updNode]; split <;> rfl

@[simp] lemma setNextSibO_childNodes (d : Dom) (t v : Option Nat) (j : Nat) :
    ((setNextSibO d t v).nodes j).childNodes = (d.nodes j).childNodes := by
  cases t with
  | none => rfl
  | some i => simp only [setNextSibO, updNode]; split <;> rfl

@[simp] lemma setNextSibO_children (d : Dom) (t v : Option Nat) (j : Nat) :
    ((setNextSibO d t v).nodes j).children = (d.nodes j).children := by
  cases t with
  | none => rfl
  | some i => simp only [setNextSibO, updNode]; split <;> rfl

@[simp] lemma setNextSibO_prevElem (d : Dom) (t v : Option Nat) (j : Nat) :
    ((setNextSibO d t v).nodes j).prevElem = (d.nodes j).prevElem := by
  cases t with
  | none => rfl
  | some i => simp only [setNextSibO, updNode]; split <;> rfl

@[simp] lemma setNextSibO_nextElem (d : Dom) (t v : Option Nat) (j : Nat) :
    ((setNextSibO d t v).nodes j).nextElem = (d.nodes j).nextElem := by
  cases t with
  | none => rfl
  | some i => simp only [setNextSibO, updNode]; split <;> rfl

@[simp] lemma setNextSibO_parent (d : Dom) (t v : Option Nat) (j : Nat) :
    ((setNextSibO d t v).nodes j).parent = (d.nodes j).parent := by
  cases t with
  | none => rfl
  | some i => simp only [setNextSibO, updNode]; split <;> rfl

@[simp] lemma setPrevElemO_isElem (d : Dom) (t v : Option Nat) (j : Nat) :
    ((setPrevElemO d t v).nodes j).isElem = (d.nodes j).isElem := by
  cases t with
  | none => rfl
  | some i => simp only [setPrevElemO, updNode]; split <;> rfl

@[simp] lemma setPrevElemO_childNodes (d : Dom) (t v : Option Nat) (j : Nat) :
    ((setPrevElemO d t v).nodes j).childNodes = (d.nodes j).childNodes := by
  cases t with
  | none => rfl
  | some i => simp only [setPrevElemO, updNode]; split <;> rfl

@[simp] lemma setPrevElemO_children (d : Dom) (t v : Option Nat) (j : Nat) :
    ((setPrevElemO d t v).nodes j).children = (d.nodes j).children := by
  cases t with
  | none => rfl
  | some i => simp only [setPrevElemO, updNode]; split <;> rfl

@[simp] lemma setPrevElemO_prevElem (d : Dom) (t v : Option Nat) (j : Nat) :
    ((setPrevElemO d t v).nodes j).prevElem
      = if t = some j then v else (d.nodes j).prevElem := by
  cases t with
  | none => simp [setPrevElemO]
  | some i =>
    simp only [setPrevElemO, updNode]
    by_cases h : j = i
    · subst h; simp
    · have h2 : (some i = some j) = False := by
        simp
        exact fun he => h he.symm
      simp [h, h2]

@[simp] lemma setPrevElemO_nextElem (d : Dom) (t v : Option Nat) (j : Nat) :
    ((setPrevElemO d t v).nodes j).nextElem = (d.nodes j).nextElem := by
  cases t with
  | none => rfl
  | some i => simp only [setPrevElemO, updNode]; split <;> rfl

@[simp] lemma setPrevElemO_parent (d : Dom) (t v : Option Nat) (j : Nat) :
    ((setPrevElemO d t v).nodes j).parent = (d.nodes j).parent := by
  cases t with
  | none => rfl
  | some i => simp only [setPrevElemO, updNode]; split <;> rfl

@[simp] lemma setNextElemO_isElem (d : Dom) (t v : Option Nat) (j : Nat) :
    ((setNextElemO d t v).nodes j).isElem = (d.nodes j).isElem := by
  cases t with
  | none => rfl
  | some i => simp only [setNextElemO, updNode]; split <;> rfl

@[simp] lemma setNextElemO_childNodes (d : Dom) (t v : Option Nat) (j : Nat) :
    ((setNextElemO d t v).nodes j).childNodes = (d.nodes j).childNodes := by
  cases t with
  | none => rfl
  | some i => simp only [setNextElemO, updNode]; split <;> rfl

@[simp] lemma setNextElemO_children (d : Dom) (t v : Option Nat) (j : Nat) :
    ((setNextElemO d t v).nodes j).children = (d.nodes j).children := by
  cases t with
  | none => rfl
  | some i => simp only [setNextElemO, updNode]; split <;> rfl

@[simp] lemma setNextElemO_prevElem (d : Dom) (t v : Option Nat) (j : Nat) :
    ((setNextElemO d t v).nodes j).prevElem = (d.nodes j).prevElem := by
  cases t with
  | none => rfl
  | some i => simp only [setNextElemO, updNode]; split <;> rfl

@[simp] lemma setNextElemO_nextElem (d : Dom) (t v : Option Nat) (j : Nat) :
    ((setNextElemO d t v).nodes j).nextElem
      = if t = some j then v else (d.nodes j).nextElem := by
  cases t with
  | none => simp [setNextElemO]
  | some i =>
    simp only [setNextElemO, updNode]
    by_cases h : j = i
    · subst h; simp
    · have h2 : (some i = some j) = False := by
        simp
        exact fun he => h he.symm
      simp [h, h2]

@[simp] lemma setNextElemO_parent (d : Dom) (t v : Option Nat) (j : Nat) :
    ((setNextElemO d t v).nodes j).parent = (d.nodes j).parent := by
  cases t with
  | none => rfl
  | some i => simp only [setNextElemO, updNode]; split <;> rfl

/-- indexOf from util.go (slices.IndexFunc with pointer equality), as an
optional index: none stands for Go's -1. -/
def goIndexOf (c : Nat) : List Nat → Option Nat
  | [] => none
  | a :: l => if a = c then some 0 else (goIndexOf c l).map (· + 1)

/-- delete from util.go at an optional index.  Go panics when the index
is -1; every use below is guarded by hypotheses that make the index
found, so the none case (left as the identity) is unreachable there. -/
def goDeleteAt (idx : Option Nat) (l : List Nat) : List Nat :=
  match idx with
  | some i => l.eraseIdx i
  | none => l

/-- Go's a[i] = x at an optional index (panics on -1, same remark). -/
def goSetAt (idx : Option Nat) (x : Nat) (l : List Nat) : List Nat :=
  match idx with
  | some i => l.set i x
  | none => l

/-- insert from util.go at an optional index (panics on -1, same remark). -/
def goInsertAt (x : Nat) (idx : Option Nat) (l : List Nat) : List Nat :=
  match idx with
  | some i => l.take i ++ x :: l.drop i
  | none => l

/-- removeChild from domparser.go.  The not-found branch returns an error
without mutating anything, so it maps to the unchanged store. -/
def removeChildOp (d : Dom) (p c : Nat) : Dom :=
  match goIndexOf c (d.nodes p).childNodes with
  | none => d
  | some childIndex =>
    let d1 := setParent d c none
    let prev := (d1.nodes c).prevSib
    let next := (d1.nodes c).nextSib
    let d2 := setNextSibO d1 prev next
    let d3 := setPrevSibO d2 next prev
    let d4 :=
      if (d3.nodes c).isElem then
        let pe := (d3.nodes c).prevElem
        let ne := (d3.nodes c).nextElem
        let d4a := setNextElemO d3 pe ne
        let d4b := setPrevElemO d4a ne pe
        setChildren d4b p
          (goDeleteAt (goIndexOf c (d4b.nodes p).children) (d4b.nodes p).children)
      else d3
    let d5 := setPrevSibO d4 (some c) none
    let d6 := setNextSibO d5 (some c) none
    let d7 := setPrevElemO d6 (some c) none
    let d8 := setNextElemO d7 (some c) none
    setChildNodes d8 p ((d8.nodes p).childNodes.eraseIdx childIndex)

/-- The detach prologue shared by appendChild and replaceChild: if the
node has a parent, remove it from that parent first. -/
def detachStep (d : Dom) (c : Nat) : Dom :=
  match (d.nodes c).parent with
  | some q => removeChildOp d q c
  | none => d

/-- Go's conditional assignment i.PreviousElementSibling = t, executed
only when the optional value v carries a t (appendChild skips the write
when the receiver has no element children yet). -/
def setPrevElemIfSome (d : Dom) (i : Nat) (v : Option Nat) : Dom :=
  match v with
  | some t => setPrevElemO d (some i) (some t)
  | none => d

/-- appendChild from domparser.go: detach from the current parent if any,
then link as the last child. -/
def appendChildOp (d : Dom) (p c : Nat) : Dom :=
  let d0 := detachStep d c
  let last := (d0.nodes p).childNodes.getLast?
  let d1 := setNextSibO d0 last (some c)
  let d2 := setPrevSibO d1 (some c) last
  let d3 :=
    if (d2.nodes c).isElem then
      let d3a := setPrevElemIfSome d2 c ((d2.nodes p).children.getLast?)
      let d3b := setChildren d3a p ((d3a.nodes p).children ++ [c])
      setNextElemO d3b (d3b.nodes c).prevElem (some c)
    else d2
  let d4 := setChildNodes d3 p ((d3.nodes p).childNodes ++ [c])
  setParent d4 c (some p)

/-- replaceChild from domparser.go.  The not-found branch panics in Go and
is left as the unchanged store here.  Go writes through a childNodes slice
captured before the detach of the new node.  The only mutation of that
slice's backing array before the write is the detach itself, and only when
the new node's parent is the receiver: delete shifts the array in place
and reslices, so the stale write childNodes[childIndex] = newNode lands in
the receiver's ChildNodes exactly when childIndex is below the shortened
length, and in the dropped trailing slot otherwise.  List.set is a no-op
beyond the list's length, so setting childIndex on the post-detach list
reproduces both outcomes (and, with no aliasing, the plain visible write).
The hard-way scans below read the captured positions other than
childIndex, which after the detach agree with the post-detach list except
for the trailing slot, which Go nils out and then crashes on if the
forward scan reaches it (a nil dereference with no resulting state). -/
def replaceChildOp (d : Dom) (p nw old : Nat) : Dom :=
  match goIndexOf old (d.nodes p).childNodes with
  | none => d
  | some childIndex =>
    let d0 := detachStep d nw
    let d1 := setChildNodes d0 p ((d0.nodes p).childNodes.set childIndex nw)
    let d2 := setNextSibO d1 (some nw) (d1.nodes old).nextSib
    let d3 := setPrevSibO d2 (some nw) (d2.nodes old).prevSib
    let d4 := setPrevSibO d3 (d3.nodes nw).nextSib (some nw)
    let d5 := setNextSibO d4 (d4.nodes nw).prevSib (some nw)
    let d6 := setParent d5 nw (some p)
    let d7 :=
      if (d6.nodes nw).isElem then
        if (d6.nodes old).isElem then
          let d7a := setPrevElemO d6 (some nw) (d6.nodes old).prevElem
          let d7b := setNextElemO d7a (some nw) (d7a.nodes old).nextElem
          let d7c := setNextElemO d7b (d7b.nodes nw).prevElem (some nw)
          let d7d := setPrevElemO d7c (d7c.nodes nw).nextElem (some nw)
          setChildren d7d p
            (goSetAt (goIndexOf old (d7d.nodes p).children) nw (d7d.nodes p).children)
        else
          let cn := (d6.nodes p).childNodes
          let pe := (cn.take childIndex).reverse.find? (fun j => (d6.nodes j).isElem)
          let d7a := setPrevElemO d6 (some nw) pe
          let nextV :=
            match (d7a.nodes nw).prevElem with
            | some t => (d7a.nodes t).nextElem
            | none =>
              (cn.drop (childIndex + 1)).find? (fun j => (d7a.nodes j).isElem)
          let d7b := setNextElemO d7a (some nw) nextV
          let d7c := setNextElemO d7b (d7b.nodes nw).prevElem (some nw)
          let d7d := setPrevElemO d7c (d7c.nodes nw).nextElem (some nw)
          let newCh :=
            match (d7d.nodes nw).nextElem with
            | some m =>
              goInsertAt nw (goIndexOf m (d7d.nodes p).children) (d7d.nodes p).children
            | none => (d7d.nodes p).children ++ [nw]
          setChildren d7d p newCh
      else if (d6.nodes old).isElem then
        let d7a := setNextElemO d6 (d6.nodes old).prevElem (d6.nodes old).nextElem
        let d7b := setPrevElemO d7a (d7a.nodes old).nextElem (d7a.nodes old).prevElem
        setChildren d7b p
          (goDeleteAt (goIndexOf old (d7b.nodes p).children) (d7b.nodes p).children)
      else d6
    let d8 := setParent d7 old none
    let d9 := setPrevSibO d8 (some old) none
    let d10 := setNextSibO d9 (some old) none
    if (d10.nodes old).isElem then
      setNextElemO (setPrevElemO d10 (some old) none) (some old) none
    else d10

/-- Subsequence test (same order, not necessarily contiguous). -/
def isSubseq : List Nat → List Nat → Bool
  | [], _ => true
  | _ :: _, [] => false
  | a :: l1, b :: l2 => (a == b && isSubseq l1 l2) || isSubseq (a :: l1) l2

/-- No duplicate identifiers. -/
def nodupB : List Nat → Bool
  | [] => true
  | a :: l => !(decide (a ∈ l)) && nodupB l

/-- The element-sibling pointers walk the given children list: each entry
points back at its predecessor (pr before the first) and forward at its
successor (none after the last). -/
def chainB (d : Dom) : Option Nat → List Nat → Bool
  | _, [] => true
  | pr, a :: rest =>
      ((d.nodes a).prevElem == pr) && ((d.nodes a).nextElem == rest.head?)
        && chainB d (some a) rest

/-- Children is exactly the element-filtered childNodes, everywhere. -/
def elemFilterOkB (d : Dom) : Bool :=
  d.dom.all fun i =>
    (d.nodes i).children
      == (d.nodes i).childNodes.filter (fun j => (d.nodes j).isElem)

/-- Every stored child points back at its parent, lives in the document,
and is not its own parent. -/
def parentOkB (d : Dom) : Bool :=
  d.dom.all fun i =>
    (d.nodes i).childNodes.all fun j =>
      decide (j ∈ d.dom) && ((d.nodes j).parent == some i) && !(j == i)

/-- Every parent pointer is backed by membership in that parent's
childNodes. -/
def parentBackB (d : Dom) : Bool :=
  d.dom.all fun j =>
    match (d.nodes j).parent with
    | none => true
    | some i => decide (i ∈ d.dom) && decide (j ∈ (d.nodes i).childNodes)

/-- childNodes lists hold no duplicates. -/
def nodupOkB (d : Dom) : Bool :=
  d.dom.all fun i => nodupB (d.nodes i).childNodes

/-- Element-sibling pointers are consistent with the children lists. -/
def chainOkB (d : Dom) : Bool :=
  d.dom.all fun i => chainB d none (d.nodes i).children

/-- The structural well-formedness the parser maintains. -/
def wellFormedB (d : Dom) : Bool :=
  elemFilterOkB d && nodupOkB d && parentOkB d && parentBackB d && chainOkB d

/-- The claimed invariant: children is a subsequence of childNodes,
everywhere. -/
def subseqOkB (d : Dom) : Bool :=
  d.dom.all fun i => isSubseq (d.nodes i).children (d.nodes i).childNodes

/-- The claimed detach behaviour of appendChild: if the appended node had
a parent other than the receiver, it no longer appears among that former
parent's childNodes afterwards. -/
def detachedOk (d : Dom) (p c : Nat) : Bool :=
  match (d.nodes c).parent with
  | none => true
  | some q => (q == p) || !(decide (c ∈ ((appendChildOp d p c).nodes q).childNodes))

lemma goIndexOf_some_spec (c : Nat) (l : List Nat) (k : Nat)
    (h : goIndexOf c l = some k) :
    ∃ A B, l = A ++ c :: B ∧ A.length = k ∧ c ∉ A := by
  induction l generalizing k with
  | nil => simp [goIndexOf] at h
  | cons a l ih =>
    by_cases hac : a = c
    · subst hac
      simp [goIndexOf] at h
      exact ⟨[], l, rfl, h, by simp⟩
    · simp only [goIndexOf, if_neg hac, Option.map_eq_some'] at h
      obtain ⟨k', hk', rfl⟩ := h
      obtain ⟨A, B, rfl, hlen, hmem⟩ := ih k' hk'
      refine ⟨a :: A, B, rfl, by simp [hlen], ?_⟩
      intro hc
      rcases List.mem_cons.mp hc with h1 | h1
      · exact hac h1.symm
      · exact hmem h1

lemma goIndexOf_append (c : Nat) (A B : List Nat) (h : c ∉ A) :
    goIndexOf c (A ++ c :: B) = some A.length := by
  induction A with
  | nil => simp [goIndexOf]
  | cons a A ih =>
    have hac : a ≠ c := fun he => h (by simp [he])
    have hrest : c ∉ A := fun hm => h (List.mem_cons_of_mem a hm)
    simp [goIndexOf, hac, ih hrest]

lemma eraseIdx_append_len (A B : List Nat) (x : Nat) :
    (A ++ x :: B).eraseIdx A.length = A ++ B := by
  induction A with
  | nil => rfl
  | cons a A ih => simp [ih]

lemma set_append_len (A B : List Nat) (x y : Nat) :
    (A ++ x :: B).set A.length y = A ++ y :: B := by
  induction A with
  | nil => rfl
  | cons a A ih =>
    simp only [List.cons_append, List.length_cons, List.set_cons_succ, ih]

lemma find?_eq_head?_filter (P : Nat → Bool) (l : List Nat) :
    l.find? P = (l.filter P).head? := by
  induction l with
  | nil => rfl
  | cons a l ih =>
    cases h : P a with
    | true => rw [List.find?_cons_of_pos _ h, List.filter_cons_of_pos h]; rfl
    | false =>
      rw [List.find?_cons_of_neg _ (by simp [h]),
        List.filter_cons_of_neg (by simp [h])]
      exact ih

lemma reverse_find?_filter (P : Nat → Bool) (l : List Nat) :
    l.reverse.find? P = (l.filter P).getLast? := by
  rw [find?_eq_head?_filter, List.filter_reverse, List.head?_reverse]

lemma isSubseq_filter (P : Nat → Bool) (l : List Nat) :
    isSubseq (l.filter P) l = true := by
  induction l with
  | nil => rfl
  | cons a l ih =>
    by_cases h : P a
    · simp [List.filter_cons, h, isSubseq, ih]
    · simp only [List.filter_cons, h, Bool.false_eq_true, if_false]
      cases hf : l.filter P with
      | nil => rfl
      | cons b t =>
        have ih2 := ih
        rw [hf] at ih2
        simp [isSubseq, ih2]

lemma nodupB_right_not_left (A B : List Nat) (x a : Nat)
    (h : nodupB (A ++ x :: B) = true) (ha : a ∈ B) : a ∉ A := by
  induction A with
  | nil => simp
  | cons a' A ih =>
    simp only [List.cons_append, nodupB, Bool.and_eq_true, Bool.not_eq_true',
      decide_eq_false_iff_not] at h
    intro hc
    rcases List.mem_cons.mp hc with h1 | h1
    · subst h1
      exact h.1 (by simp [ha])
    · exact ih h.2 h1

lemma chainB_last_append (d : Dom) (xs : List Nat) :
    ∀ (pr : Option Nat) (ys : List Nat), chainB d pr (xs ++ ys) = true →
    ∀ t, xs.getLast? = some t → (d.nodes t).nextElem = ys.head? := by
  induction xs with
  | nil =>
    intro pr ys h t ht
    simp at ht
  | cons x xs ih =>
    intro pr ys h t ht
    simp only [List.cons_append, chainB, Bool.and_eq_true, beq_iff_eq] at h
    obtain ⟨⟨hpe, hne⟩, hch⟩ := h
    cases xs with
    | nil =>
      simp only [List.getLast?_singleton, Option.some.injEq] at ht
      subst ht
      simpa using hne
    | cons y ys2 =>
      have ht2 : (y :: ys2).getLast? = some t := by
        rw [List.getLast?_cons_cons] at ht
        exact ht
      exact ih (some x) ys hch t ht2

lemma chainB_mem_bounds (d : Dom) (l : List Nat) :
    ∀ (pr : Option Nat) (a : Nat), chainB d pr l = true → a ∈ l →
    ((d.nodes a).prevElem = pr ∨ ∃ b, b ∈ l ∧ (d.nodes a).prevElem = some b) ∧
    ((d.nodes a).nextElem = none ∨ ∃ b, b ∈ l ∧ (d.nodes a).nextElem = some b) := by
  induction l with
  | nil =>
    intro pr a h ha
    simp at ha
  | cons x l ih =>
    intro pr a h ha
    simp only [chainB, Bool.and_eq_true, beq_iff_eq] at h
    obtain ⟨⟨hpe, hne⟩, hch⟩ := h
    rcases List.mem_cons.mp ha with h1 | h1
    · subst h1
      refine ⟨Or.inl hpe, ?_⟩
      cases hl : l with
      | nil =>
        rw [hl] at hne
        exact Or.inl hne
      | cons b t =>
        rw [hl] at hne
        exact Or.inr ⟨b, by simp, hne⟩
    · obtain ⟨hp, hn⟩ := ih (some x) a hch h1
      constructor
      · rcases hp with hp | ⟨b, hb, hp⟩
        · exact Or.inr ⟨x, by simp, hp⟩
        · exact Or.inr ⟨b, by simp [hb], hp⟩
      · rcases hn with hn | ⟨b, hb, hn⟩
        · exact Or.inl hn
        · exact Or.inr ⟨b, by simp [hb], hn⟩

lemma elemFilterOk_at (d : Dom) (h : elemFilterOkB d = true) (i : Nat)
    (hi : i ∈ d.dom) :
    (d.nodes i).children
      = (d.nodes i).childNodes.filter (fun j => (d.nodes j).isElem) := by
  have h2 := List.all_eq_true.mp h i hi
  exact beq_iff_eq.mp h2

lemma nodupOk_at (d : Dom) (h : nodupOkB d = true) (i : Nat) (hi : i ∈ d.dom) :
    nodupB (d.nodes i).childNodes = true :=
  List.all_eq_true.mp h i hi

lemma chainOk_at (d : Dom) (h : chainOkB d = true) (i : Nat) (hi : i ∈ d.dom) :
    chainB d none (d.nodes i).children = true :=
  List.all_eq_true.mp h i hi

lemma parentOk_at (d : Dom) (h : parentOkB d = true) (i j : Nat) (hi : i ∈ d.dom)
    (hj : j ∈ (d.nodes i).childNodes) :
    j ∈ d.dom ∧ (d.nodes j).parent = some i ∧ j ≠ i := by
  have h1 := List.all_eq_true.mp h i hi
  have h2 := List.all_eq_true.mp h1 j hj
  simp only [Bool.and_eq_true, beq_iff_eq, decide_eq_true_eq,
    Bool.not_eq_true', beq_eq_false_iff_ne] at h2
  exact ⟨h2.1.1, h2.1.2, h2.2⟩

lemma parentBack_at (d : Dom) (h : parentBackB d = true) (j i : Nat)
    (hj : j ∈ d.dom) (hp : (d.nodes j).parent = some i) :
    i ∈ d.dom ∧ j ∈ (d.nodes i).childNodes := by
  have h1 := List.all_eq_true.mp h j hj
  rw [hp] at h1
  simp only [Bool.and_eq_true, decide_eq_true_eq] at h1
  exact h1

lemma subseqOk_of_filterOk (d : Dom) (h : elemFilterOkB d = true) :
    subseqOkB d = true := by
  apply List.all_eq_true.mpr
  intro i hi
  show isSubseq (d.nodes i).children (d.nodes i).childNodes = true
  rw [elemFilterOk_at d h i hi]
  exact isSubseq_filter _ _

lemma removeChildOp_not_found (d : Dom) (p c : Nat)
    (h : goIndexOf c (d.nodes p).childNodes = none) : removeChildOp d p c = d := by
  unfold removeChildOp
  rw [h]

lemma removeChildOp_dom (d : Dom) (p c : Nat) :
    (removeChildOp d p c).dom = d.dom := by
  unfold removeChildOp
  cases goIndexOf c (d.nodes p).childNodes with
  | none => rfl
  | some k => by_cases hel : (d.nodes c).isElem <;> simp [hel]

lemma removeChildOp_isElem (d : Dom) (p c j : Nat) :
    ((removeChildOp d p c).nodes j).isElem = (d.nodes j).isElem := by
  unfold removeChildOp
  cases goIndexOf c (d.nodes p).childNodes with
  | none => rfl
  | some k => by_cases hel : (d.nodes c).isElem <;> simp [hel]

lemma removeChildOp_parent (d : Dom) (p c k : Nat)
    (h : goIndexOf c (d.nodes p).childNodes = some k) (j : Nat) :
    ((removeChildOp d p c).nodes j).parent
      = if j = c then none else (d.nodes j).parent := by
  unfold removeChildOp
  rw [h]
  by_cases hel : (d.nodes c).isElem <;> simp [hel]

lemma removeChildOp_childNodes (d : Dom) (p c k : Nat)
    (h : goIndexOf c (d.nodes p).childNodes = some k) (j : Nat) :
    ((removeChildOp d p c).nodes j).childNodes
      = if j = p then (d.nodes p).childNodes.eraseIdx k
        else (d.nodes j).childNodes := by
  unfold removeChildOp
  rw [h]
  by_cases hel : (d.nodes c).isElem <;> simp [hel]

lemma removeChildOp_children (d : Dom) (p c k : Nat)
    (h : goIndexOf c (d.nodes p).childNodes = some k) (j : Nat) :
    ((removeChildOp d p c).nodes j).children
      = if j = p ∧ (d.nodes c).isElem = true
          then goDeleteAt (goIndexOf c (d.nodes p).children) (d.nodes p).children
          else (d.nodes j).children := by
  unfold removeChildOp
  rw [h]
  by_cases hel : (d.nodes c).isElem
  · by_cases hj : j = p <;> simp [hel, hj]
  · by_cases hj : j = p <;> simp [hel, hj]

lemma removeChildOp_prevElem (d : Dom) (p c k : Nat)
    (h : goIndexOf c (d.nodes p).childNodes = some k) (j : Nat) (hjc : j ≠ c)
    (hne2 : (d.nodes c).nextElem ≠ some j) :
    ((removeChildOp d p c).nodes j).prevElem = (d.nodes j).prevElem := by
  unfold removeChildOp
  rw [h]
  by_cases hel : (d.nodes c).isElem <;> simp [hel, Ne.symm hjc, hne2]

lemma removeChildOp_nextElem (d : Dom) (p c k : Nat)
    (h : goIndexOf c (d.nodes p).childNodes = some k) (j : Nat) (hjc : j ≠ c)
    (hpe2 : (d.nodes c).prevElem ≠ some j) :
    ((removeChildOp d p c).nodes j).nextElem = (d.nodes j).nextElem := by
  unfold removeChildOp
  rw [h]
  by_cases hel : (d.nodes c).isElem <;> simp [hel, Ne.symm hjc, hpe2]

lemma removeChildOp_filterOk (d : Dom) (p c : Nat)
    (hF : elemFilterOkB d = true) : elemFilterOkB (removeChildOp d p c) = true := by
  cases hidx : goIndexOf c (d.nodes p).childNodes with
  | none =>
    rw [removeChildOp_not_found d p c hidx]
    exact hF
  | some k =>
    apply List.all_eq_true.mpr
    intro i hi
    rw [removeChildOp_dom] at hi
    show (((removeChildOp d p c).nodes i).children
      == ((removeChildOp d p c).nodes i).childNodes.filter
            (fun j => ((removeChildOp d p c).nodes j).isElem)) = true
    apply beq_iff_eq.mpr
    have hfun : (fun j => ((removeChildOp d p c).nodes j).isElem)
        = (fun j => (d.nodes j).isElem) :=
      funext fun j => removeChildOp_isElem d p c j
    rw [hfun, removeChildOp_children d p c k hidx i,
      removeChildOp_childNodes d p c k hidx i]
    by_cases hip : i = p
    · subst hip
      obtain ⟨A, B, hcn, hlen, hmem⟩ := goIndexOf_some_spec c _ k hidx
      have hch := elemFilterOk_at d hF i hi
      by_cases hel : (d.nodes c).isElem
      · rw [if_pos ⟨rfl, hel⟩, if_pos rfl]
        rw [hcn, ← hlen, eraseIdx_append_len]
        have hchl : (d.nodes i).children
            = List.filter (fun j => (d.nodes j).isElem) A
                ++ c :: List.filter (fun j => (d.nodes j).isElem) B := by
          rw [hch, hcn, List.filter_append, List.filter_cons]
          simp [hel]
        have hmemf : c ∉ List.filter (fun j => (d.nodes j).isElem) A :=
          fun hmf => hmem (List.mem_of_mem_filter hmf)
        rw [hchl, goIndexOf_append c _ _ hmemf]
        simp only [goDeleteAt]
        rw [eraseIdx_append_len, List.filter_append]
      · rw [if_neg (by simp [hel]), if_pos rfl]
        rw [hcn, ← hlen, eraseIdx_append_len]
        rw [hch, hcn, List.filter_append, List.filter_cons, List.filter_append]
        simp [hel]
    · rw [if_neg (by simp [hip]), if_neg hip]
      exact elemFilterOk_at d hF i hi

lemma detachStep_dom (d : Dom) (c : Nat) : (detachStep d c).dom = d.dom := by
  unfold detachStep
  cases (d.nodes c).parent with
  | none => rfl
  | some q => exact removeChildOp_dom d q c

lemma detachStep_isElem (d : Dom) (c j : Nat) :
    ((detachStep d c).nodes j).isElem = (d.nodes j).isElem := by
  unfold detachStep
  cases (d.nodes c).parent with
  | none => rfl
  | some q => exact removeChildOp_isElem d q c j

lemma detachStep_filterOk (d : Dom) (c : Nat) (hF : elemFilterOkB d = true) :
    elemFilterOkB (detachStep d c) = true := by
  unfold detachStep
  cases (d.nodes c).parent with
  | none => exact hF
  | some q => exact removeChildOp_filterOk d q c hF

@[simp] lemma setPrevElemIfSome_dom (d : Dom) (i : Nat) (v : Option Nat) :
    (setPrevElemIfSome d i v).dom = d.dom := by
  cases v <;> simp [setPrevElemIfSome]

@[simp] lemma setPrevElemIfSome_isElem (d : Dom) (i : Nat) (v : Option Nat) (j : Nat) :
    ((setPrevElemIfSome d i v).nodes j).isElem = (d.nodes j).isElem := by
  cases v <;> simp [setPrevElemIfSome]

@[simp] lemma setPrevElemIfSome_childNodes (d : Dom) (i : Nat) (v : Option Nat) (j : Nat) :
    ((setPrevElemIfSome d i v).nodes j).childNodes = (d.nodes j).childNodes := by
  cases v <;> simp [setPrevElemIfSome]

@[simp] lemma setPrevElemIfSome_children (d : Dom) (i : Nat) (v : Option Nat) (j : Nat) :
    ((setPrevElemIfSome d i v).nodes j).children = (d.nodes j).children := by
  cases v <;> simp [setPrevElemIfSome]

@[simp] lemma setPrevElemIfSome_parent (d : Dom) (i : Nat) (v : Option Nat) (j : Nat) :
    ((setPrevElemIfSome d i v).nodes j).parent = (d.nodes j).parent := by
  cases v <;> simp [setPrevElemIfSome]

@[simp] lemma setPrevElemIfSome_nextElem (d : Dom) (i : Nat) (v : Option Nat) (j : Nat) :
    ((setPrevElemIfSome d i v).nodes j).nextElem = (d.nodes j).nextElem := by
  cases v <;> simp [setPrevElemIfSome]

lemma appendChildOp_dom (d : Dom) (p c : Nat) :
    (appendChildOp d p c).dom = d.dom := by
  unfold appendChildOp
  by_cases hel : ((detachStep d c).nodes c).isElem <;>
    simp [hel, detachStep_dom]

lemma appendChildOp_isElem (d : Dom) (p c j : Nat) :
    ((appendChildOp d p c).nodes j).isElem = (d.nodes j).isElem := by
  unfold appendChildOp
  by_cases hel : ((detachStep d c).nodes c).isElem <;>
    simp [hel, detachStep_isElem]

lemma appendChildOp_childNodes (d : Dom) (p c j : Nat) :
    ((appendChildOp d p c).nodes j).childNodes
      = if j = p then ((detachStep d c).nodes p).childNodes ++ [c]
        else ((detachStep d c).nodes j).childNodes := by
  unfold appendChildOp
  by_cases hel : ((detachStep d c).nodes c).isElem <;> simp [hel]

lemma appendChildOp_children (d : Dom) (p c j : Nat) :
    ((appendChildOp d p c).nodes j).children
      = if j = p ∧ (d.nodes c).isElem = true
          then ((detachStep d c).nodes p).children ++ [c]
        else ((detachStep d c).nodes j).children := by
  unfold appendChildOp
  by_cases hel : ((detachStep d c).nodes c).isElem
  · rw [detachStep_isElem] at hel
    by_cases hj : j = p <;> simp [hel, hj, detachStep_isElem]
  · rw [detachStep_isElem] at hel
    by_cases hj : j = p <;> simp [hel, hj, detachStep_isElem]

lemma appendChildOp_filterOk (d : Dom) (p c : Nat)
    (hF : elemFilterOkB d = true) : elemFilterOkB (appendChildOp d p c) = true := by
  have hF0 := detachStep_filterOk d c hF
  apply List.all_eq_true.mpr
  intro i hi
  rw [appendChildOp_dom] at hi
  have hi0 : i ∈ (detachStep d c).dom := by rw [detachStep_dom]; exact hi
  show (((appendChildOp d p c).nodes i).children
    == ((appendChildOp d p c).nodes i).childNodes.filter
          (fun j => ((appendChildOp d p c).nodes j).isElem)) = true
  apply beq_iff_eq.mpr
  have hfun : (fun j => ((appendChildOp d p c).nodes j).isElem)
      = (fun j => ((detachStep d c).nodes j).isElem) :=
    funext fun j => by rw [appendChildOp_isElem, detachStep_isElem]
  rw [hfun, appendChildOp_children, appendChildOp_childNodes]
  by_cases hip : i = p
  · subst hip
    by_cases hel : (d.nodes c).isElem
    · rw [if_pos ⟨rfl, hel⟩, if_pos rfl]
      rw [elemFilterOk_at _ hF0 i hi0, List.filter_append, List.filter_cons]
      have hel0 : ((detachStep d c).nodes c).isElem = true := by
        rw [detachStep_isElem]; exact hel
      simp [hel0]
    · rw [if_neg (by simp [hel]), if_pos rfl]
      rw [elemFilterOk_at _ hF0 i hi0, List.filter_append, List.filter_cons]
      have hel0 : ((detachStep d c).nodes c).isElem = false := by
        rw [detachStep_isElem]
        simp [hel]
      simp [hel0]
  · rw [if_neg (by simp [hip]), if_neg hip]
    exact elemFilterOk_at _ hF0 i hi0

lemma nodupB_mid_not_right (A B : List Nat) (x : Nat)
    (h : nodupB (A ++ x :: B) = true) : x ∉ B := by
  induction A with
  | nil =>
    simp only [List.nil_append, nodupB, Bool.and_eq_true, Bool.not_eq_true',
      decide_eq_false_iff_not] at h
    exact h.1
  | cons a A ih =>
    simp only [List.cons_append, nodupB, Bool.and_eq_true] at h
    exact ih h.2

lemma goIndexOf_isSome_of_mem (c : Nat) (l : List Nat) (h : c ∈ l) :
    ∃ k, goIndexOf c l = some k := by
  induction l with
  | nil => simp at h
  | cons a l ih =>
    by_cases hac : a = c
    · exact ⟨0, by simp [goIndexOf, hac]⟩
    · have h2 : c ∈ l := by
        rcases List.mem_cons.mp h with h1 | h1
        · exact absurd h1.symm hac
        · exact h1
      obtain ⟨k, hk⟩ := ih h2
      exact ⟨k + 1, by simp [goIndexOf, hac, hk]⟩

lemma appendChildOp_detach (d : Dom) (p c q k : Nat) (hq : q ≠ p)
    (hpar : (d.nodes c).parent = some q)
    (hidx : goIndexOf c (d.nodes q).childNodes = some k)
    (hnd : nodupB (d.nodes q).childNodes = true) :
    c ∉ ((appendChildOp d p c).nodes q).childNodes := by
  rw [appendChildOp_childNodes, if_neg hq]
  unfold detachStep
  rw [hpar]
  rw [removeChildOp_childNodes d q c k hidx q, if_pos rfl]
  obtain ⟨A, B, hcn, hlen, hmem⟩ := goIndexOf_some_spec c _ k hidx
  rw [hcn] at hnd
  rw [hcn, ← hlen, eraseIdx_append_len]
  intro hc
  rcases List.mem_append.mp hc with h1 | h1
  · exact hmem h1
  · exact nodupB_mid_not_right A B c hnd h1

/-- The element sibling that replaceChild's hard-way branch computes for
the new node (previous element before the slot, then its next pointer,
else the first element after the slot), expressed over the post-detach
store d0. -/
def hardWayNext (d0 : Dom) (p nw i0 : Nat) : Option Nat :=
  let cn1 := (d0.nodes p).childNodes.set i0 nw
  match (cn1.take i0).reverse.find? (fun j => (d0.nodes j).isElem) with
  | some t => (d0.nodes t).nextElem
  | none => (cn1.drop (i0 + 1)).find? (fun j => (d0.nodes j).isElem)

/-- The children list replaceChild's hard-way branch installs on the
receiver. -/
def hardWayChildren (d0 : Dom) (p nw i0 : Nat) : List Nat :=
  match hardWayNext d0 p nw i0 with
  | some m => goInsertAt nw (goIndexOf m (d0.nodes p).children) (d0.nodes p).children
  | none => (d0.nodes p).children ++ [nw]

lemma replaceChildOp_not_found (d : Dom) (p nw old : Nat)
    (h : goIndexOf old (d.nodes p).childNodes = none) :
    replaceChildOp d p nw old = d := by
  unfold replaceChildOp
  rw [h]

lemma replaceChildOp_dom (d : Dom) (p nw old : Nat) :
    (replaceChildOp d p nw old).dom = d.dom := by
  unfold replaceChildOp
  cases hidx : goIndexOf old (d.nodes p).childNodes with
  | none => rfl
  | some i0 =>
    by_cases h1 : ((detachStep d nw).nodes nw).isElem <;>
    by_cases h2 : ((detachStep d nw).nodes old).isElem <;>
      simp [h1, h2, detachStep_dom]

lemma replaceChildOp_isElem (d : Dom) (p nw old j : Nat) :
    ((replaceChildOp d p nw old).nodes j).isElem = (d.nodes j).isElem := by
  unfold replaceChildOp
  cases hidx : goIndexOf old (d.nodes p).childNodes with
  | none => rfl
  | some i0 =>
    by_cases h1 : ((detachStep d nw).nodes nw).isElem <;>
    by_cases h2 : ((detachStep d nw).nodes old).isElem <;>
      simp [h1, h2, detachStep_isElem]

lemma replaceChildOp_childNodes (d : Dom) (p nw old i0 : Nat)
    (hidx : goIndexOf old (d.nodes p).childNodes = some i0) (j : Nat) :
    ((replaceChildOp d p nw old).nodes j).childNodes
      = if j = p then ((detachStep d nw).nodes p).childNodes.set i0 nw
        else ((detachStep d nw).nodes j).childNodes := by
  unfold replaceChildOp
  rw [hidx]
  by_cases h1 : ((detachStep d nw).nodes nw).isElem <;>
  by_cases h2 : ((detachStep d nw).nodes old).isElem <;>
  by_cases hj : j = p <;>
    simp [h1, h2, hj]

lemma replaceChildOp_children_EE (d : Dom) (p nw old i0 : Nat)
    (hidx : goIndexOf old (d.nodes p).childNodes = some i0)
    (h1 : (d.nodes nw).isElem = true) (h2 : (d.nodes old).isElem = true) (j : Nat) :
    ((replaceChildOp d p nw old).nodes j).children
      = if j = p
          then goSetAt (goIndexOf old ((detachStep d nw).nodes p).children) nw
                 ((detachStep d nw).nodes p).children
        else ((detachStep d nw).nodes j).children := by
  have h1' : ((detachStep d nw).nodes nw).isElem = true := by
    rw [detachStep_isElem]; exact h1
  have h2' : ((detachStep d nw).nodes old).isElem = true := by
    rw [detachStep_isElem]; exact h2
  unfold replaceChildOp
  rw [hidx]
  by_cases hj : j = p <;> simp [h1', h2', hj]

lemma replaceChildOp_children_TE (d : Dom) (p nw old i0 : Nat)
    (hidx : goIndexOf old (d.nodes p).childNodes = some i0)
    (h1 : (d.nodes nw).isElem = false) (h2 : (d.nodes old).isElem = true) (j : Nat) :
    ((replaceChildOp d p nw old).nodes j).children
      = if j = p
          then goDeleteAt (goIndexOf old ((detachStep d nw).nodes p).children)
                 ((detachStep d nw).nodes p).children
        else ((detachStep d nw).nodes j).children := by
  have h1' : ((detachStep d nw).nodes nw).isElem = false := by
    rw [detachStep_isElem]; exact h1
  have h2' : ((detachStep d nw).nodes old).isElem = true := by
    rw [detachStep_isElem]; exact h2
  unfold replaceChildOp
  rw [hidx]
  by_cases hj : j = p <;> simp [h1', h2', hj]

lemma replaceChildOp_children_TT (d : Dom) (p nw old i0 : Nat)
    (hidx : goIndexOf old (d.nodes p).childNodes = some i0)
    (h1 : (d.nodes nw).isElem = false) (h2 : (d.nodes old).isElem = false) (j : Nat) :
    ((replaceChildOp d p nw old).nodes j).children
      = ((detachStep d nw).nodes j).children := by
  have h1' : ((detachStep d nw).nodes nw).isElem = false := by
    rw [detachStep_isElem]; exact h1
  have h2' : ((detachStep d nw).nodes old).isElem = false := by
    rw [detachStep_isElem]; exact h2
  unfold replaceChildOp
  rw [hidx]
  by_cases hj : j = p <;> simp [h1', h2', hj]

lemma replaceChildOp_children_ET (d : Dom) (p nw old i0 : Nat)
    (hidx : goIndexOf old (d.nodes p).childNodes = some i0)
    (h1 : (d.nodes nw).isElem = true) (h2 : (d.nodes old).isElem = false)
    (hpe : ((((detachStep d nw).nodes p).childNodes.set i0 nw).take i0).reverse.find?
        (fun j => ((detachStep d nw).nodes j).isElem) ≠ some nw) (j : Nat) :
    ((replaceChildOp d p nw old).nodes j).children
      = if j = p then hardWayChildren (detachStep d nw) p nw i0
        else ((detachStep d nw).nodes j).children := by
  have h1' : ((detachStep d nw).nodes nw).isElem = true := by
    rw [detachStep_isElem]; exact h1
  have h2' : ((detachStep d nw).nodes old).isElem = false := by
    rw [detachStep_isElem]; exact h2
  unfold replaceChildOp hardWayChildren hardWayNext
  rw [hidx]
  by_cases hj : j = p <;> simp [h1', h2', hj, hpe]

lemma drop_append_len_succ (A B : List Nat) (x : Nat) :
    (A ++ x :: B).drop (A.length + 1) = B := by
  induction A with
  | nil => rfl
  | cons a A ih => simp [ih]

lemma replaceChildOp_children_ET_frame (d : Dom) (p nw old i0 : Nat)
    (hidx : goIndexOf old (d.nodes p).childNodes = some i0)
    (h1 : (d.nodes nw).isElem = true) (h2 : (d.nodes old).isElem = false)
    (j : Nat) (hj : j ≠ p) :
    ((replaceChildOp d p nw old).nodes j).children
      = ((detachStep d nw).nodes j).children := by
  have h1' : ((detachStep d nw).nodes nw).isElem = true := by
    rw [detachStep_isElem]; exact h1
  have h2' : ((detachStep d nw).nodes old).isElem = false := by
    rw [detachStep_isElem]; exact h2
  unfold replaceChildOp
  rw [hidx]
  simp [h1', h2', hj]

lemma detachStep_childNodes_p (d : Dom) (p nw : Nat)
    (hPB : parentBackB d = true) (hnwdom : nw ∈ d.dom)
    (hnwp : (d.nodes nw).parent ≠ some p) :
    ((detachStep d nw).nodes p).childNodes = (d.nodes p).childNodes := by
  unfold detachStep
  cases hpar : (d.nodes nw).parent with
  | none => rfl
  | some q =>
    have hqp : q ≠ p := fun he => hnwp (by rw [hpar, he])
    have hmemq : nw ∈ (d.nodes q).childNodes :=
      (parentBack_at d hPB nw q hnwdom hpar).2
    obtain ⟨k, hk⟩ := goIndexOf_isSome_of_mem nw _ hmemq
    rw [removeChildOp_childNodes d q nw k hk p, if_neg (fun he => hqp he.symm)]

lemma detachStep_children_p (d : Dom) (p nw : Nat)
    (hPB : parentBackB d = true) (hnwdom : nw ∈ d.dom)
    (hnwp : (d.nodes nw).parent ≠ some p) :
    ((detachStep d nw).nodes p).children = (d.nodes p).children := by
  unfold detachStep
  cases hpar : (d.nodes nw).parent with
  | none => rfl
  | some q =>
    have hqp : q ≠ p := fun he => hnwp (by rw [hpar, he])
    have hmemq : nw ∈ (d.nodes q).childNodes :=
      (parentBack_at d hPB nw q hnwdom hpar).2
    obtain ⟨k, hk⟩ := goIndexOf_isSome_of_mem nw _ hmemq
    rw [removeChildOp_children d q nw k hk p, if_neg (fun hc => hqp hc.1.symm)]

lemma detachStep_nextElem_frame (d : Dom) (p nw t : Nat)
    (hwf : wellFormedB d = true) (hnwdom : nw ∈ d.dom) (hpdom : p ∈ d.dom)
    (hnwE : (d.nodes nw).isElem = true)
    (hnwp : (d.nodes nw).parent ≠ some p)
    (ht : t ∈ (d.nodes p).childNodes) :
    ((detachStep d nw).nodes t).nextElem = (d.nodes t).nextElem := by
  have hw := hwf
  rw [wellFormedB] at hw
  simp only [Bool.and_eq_true] at hw
  obtain ⟨⟨⟨⟨hF, hND⟩, hPO⟩, hPB⟩, hCH⟩ := hw
  unfold detachStep
  cases hpar : (d.nodes nw).parent with
  | none => rfl
  | some q =>
    have hqp : q ≠ p := fun he => hnwp (by rw [hpar, he])
    obtain ⟨hqdom, hmemq⟩ := parentBack_at d hPB nw q hnwdom hpar
    obtain ⟨k, hk⟩ := goIndexOf_isSome_of_mem nw _ hmemq
    have hparp := parentOk_at d hPO p t hpdom ht
    have hnwnotp : nw ∉ (d.nodes p).childNodes := fun hm =>
      hnwp (parentOk_at d hPO p nw hpdom hm).2.1
    have htnw : t ≠ nw := fun he => hnwnotp (he ▸ ht)
    have hchq : (d.nodes q).children
        = (d.nodes q).childNodes.filter (fun j => (d.nodes j).isElem) :=
      elemFilterOk_at d hF q hqdom
    have hnwchq : nw ∈ (d.nodes q).children := by
      rw [hchq]
      exact List.mem_filter.mpr ⟨hmemq, hnwE⟩
    have hchain := chainOk_at d hCH q hqdom
    have hbounds := chainB_mem_bounds d _ none nw hchain hnwchq
    have hpe2 : (d.nodes nw).prevElem ≠ some t := by
      intro hpv
      rcases hbounds.1 with hb0 | ⟨b, hb, hbv⟩
      · rw [hpv] at hb0
        exact Option.noConfusion hb0
      · rw [hpv] at hbv
        have hbt : t = b := Option.some.inj hbv
        subst hbt
        have hbq : t ∈ (d.nodes q).childNodes := by
          rw [hchq] at hb
          exact (List.mem_filter.mp hb).1
        have hptq : (d.nodes t).parent = some q :=
          (parentOk_at d hPO q t hqdom hbq).2.1
        rw [hparp.2.1] at hptq
        exact hqp (Option.some.inj hptq).symm
    exact removeChildOp_nextElem d q nw k hk t htnw hpe2

lemma replaceChildOp_filterOk (d : Dom) (p nw old : Nat)
    (hwf : wellFormedB d = true) (hnwdom : nw ∈ d.dom)
    (hnwp : (d.nodes nw).parent ≠ some p) :
    elemFilterOkB (replaceChildOp d p nw old) = true := by
  have hw := hwf
  rw [wellFormedB] at hw
  simp only [Bool.and_eq_true] at hw
  obtain ⟨⟨⟨⟨hF, hND⟩, hPO⟩, hPB⟩, hCH⟩ := hw
  cases hidx : goIndexOf old (d.nodes p).childNodes with
  | none =>
    rw [replaceChildOp_not_found d p nw old hidx]
    exact hF
  | some i0 =>
    have hd0F : elemFilterOkB (detachStep d nw) = true := detachStep_filterOk d nw hF
    have hPEfun : (fun j => ((detachStep d nw).nodes j).isElem)
        = (fun j => (d.nodes j).isElem) := funext (detachStep_isElem d nw)
    apply List.all_eq_true.mpr
    intro i hi
    rw [replaceChildOp_dom] at hi
    have hi0 : i ∈ (detachStep d nw).dom := by rw [detachStep_dom]; exact hi
    show (((replaceChildOp d p nw old).nodes i).children
      == ((replaceChildOp d p nw old).nodes i).childNodes.filter
            (fun j => ((replaceChildOp d p nw old).nodes j).isElem)) = true
    apply beq_iff_eq.mpr
    have hfun : (fun j => ((replaceChildOp d p nw old).nodes j).isElem)
        = (fun j => (d.nodes j).isElem) :=
      funext fun j => replaceChildOp_isElem d p nw old j
    rw [hfun, replaceChildOp_childNodes d p nw old i0 hidx i]
    by_cases hip : i = p
    · subst hip
      rw [if_pos rfl]
      obtain ⟨A, B, hcnAB, hlen, hmemA⟩ := goIndexOf_some_spec old _ i0 hidx
      have hfr1 := detachStep_childNodes_p d i nw hPB hnwdom hnwp
      have hfr2 := detachStep_children_p d i nw hPB hnwdom hnwp
      have hch : (d.nodes i).children
          = (d.nodes i).childNodes.filter (fun j => (d.nodes j).isElem) :=
        elemFilterOk_at d hF i hi
      have hcn1 : ((detachStep d nw).nodes i).childNodes.set i0 nw
          = A ++ nw :: B := by
        rw [hfr1, hcnAB, ← hlen, set_append_len]
      rw [hcn1]
      have hfA_old : old ∉ List.filter (fun j => (d.nodes j).isElem) A :=
        fun hmf => hmemA (List.mem_of_mem_filter hmf)
      cases hb1 : (d.nodes nw).isElem <;> cases hb2 : (d.nodes old).isElem
      · -- neither an element
        rw [replaceChildOp_children_TT d i nw old i0 hidx hb1 hb2 i, hfr2]
        rw [hch, hcnAB, List.filter_append, List.filter_cons, List.filter_append,
          List.filter_cons]
        simp [hb1, hb2]
      · -- old was an element, the new node is not
        rw [replaceChildOp_children_TE d i nw old i0 hidx hb1 hb2 i, if_pos rfl,
          hfr2]
        rw [hch, hcnAB, List.filter_append, List.filter_cons]
        simp only [hb2, if_true]
        rw [goIndexOf_append old _ _ hfA_old]
        simp only [goDeleteAt]
        rw [eraseIdx_append_len, List.filter_append, List.filter_cons]
        simp [hb1]
      · -- the new node is an element, old was not: the hard way
        have hnwnotp : nw ∉ (d.nodes i).childNodes := fun hm =>
          hnwp (parentOk_at d hPO i nw hi hm).2.1
        have hpeval :
            ((((detachStep d nw).nodes i).childNodes.set i0 nw).take i0).reverse.find?
                (fun j => ((detachStep d nw).nodes j).isElem)
              = (List.filter (fun j => (d.nodes j).isElem) A).getLast? := by
          rw [hcn1, ← hlen, List.take_left, reverse_find?_filter, hPEfun]
        have hpe :
            ((((detachStep d nw).nodes i).childNodes.set i0 nw).take i0).reverse.find?
                (fun j => ((detachStep d nw).nodes j).isElem) ≠ some nw := by
          rw [hpeval]
          intro hsome
          have h1 := List.mem_of_mem_filter (List.mem_of_getLast?_eq_some hsome)
          exact hnwnotp (by rw [hcnAB]; exact List.mem_append_left _ h1)
        rw [replaceChildOp_children_ET d i nw old i0 hidx hb1 hb2 hpe i, if_pos rfl]
        simp only [hardWayChildren, hardWayNext]
        rw [hcn1, ← hlen, List.take_left, drop_append_len_succ, reverse_find?_filter,
          hPEfun, find?_eq_head?_filter, hfr2]
        have hchsplit : (d.nodes i).children
            = List.filter (fun j => (d.nodes j).isElem) A
              ++ List.filter (fun j => (d.nodes j).isElem) B := by
          rw [hch, hcnAB, List.filter_append, List.filter_cons]
          simp [hb2]
        rw [List.filter_append, List.filter_cons]
        simp only [hb1, if_true]
        cases hfA : List.filter (fun j => (d.nodes j).isElem) A with
        | nil =>
          simp only [List.getLast?_nil]
          cases hfB : List.filter (fun j => (d.nodes j).isElem) B with
          | nil =>
            simp only [List.head?_nil]
            rw [hchsplit, hfA, hfB]
            rfl
          | cons mm fB2 =>
            simp only [List.head?_cons]
            rw [hchsplit, hfA, hfB]
            simp only [List.nil_append, goIndexOf, if_pos rfl, goInsertAt]
            rfl
        | cons f fA2 =>
          cases hlast : (f :: fA2).getLast? with
          | none => simp at hlast
          | some t =>
            simp only []
            have htmemA : t ∈ A :=
              List.mem_of_mem_filter (hfA ▸ List.mem_of_getLast?_eq_some hlast)
            have htmem : t ∈ (d.nodes i).childNodes := by
              rw [hcnAB]
              exact List.mem_append_left _ htmemA
            rw [detachStep_nextElem_frame d i nw t hwf hnwdom hi hb1 hnwp htmem]
            have hchain := chainOk_at d hCH i hi
            rw [hchsplit] at hchain
            have hnext := chainB_last_append d _ none _ hchain t (hfA ▸ hlast)
            rw [hnext]
            cases hfB : List.filter (fun j => (d.nodes j).isElem) B with
            | nil =>
              simp only [List.head?_nil]
              rw [hchsplit, hfA, hfB]
              simp [goInsertAt]
            | cons mm fB2 =>
              simp only [List.head?_cons]
              rw [hchsplit, hfA, hfB]
              have hmmB : mm ∈ B := by
                have : mm ∈ List.filter (fun j => (d.nodes j).isElem) B := by
                  rw [hfB]
                  exact List.mem_cons_self mm fB2
                exact List.mem_of_mem_filter this
              have hnd := nodupOk_at d hND i hi
              rw [hcnAB] at hnd
              have hmmA : mm ∉ A := nodupB_right_not_left A B old mm hnd hmmB
              have hmmfA : mm ∉ (f :: fA2) := by
                rw [← hfA]
                exact fun hmf => hmmA (List.mem_of_mem_filter hmf)
              rw [goIndexOf_append mm _ _ hmmfA]
              simp only [goInsertAt]
              rw [List.take_left, List.drop_left]
      · -- both elements
        rw [replaceChildOp_children_EE d i nw old i0 hidx hb1 hb2 i, if_pos rfl,
          hfr2]
        rw [hch, hcnAB, List.filter_append, List.filter_cons]
        simp only [hb2, if_true]
        rw [goIndexOf_append old _ _ hfA_old]
        simp only [goSetAt]
        rw [set_append_len, List.filter_append, List.filter_cons]
        simp [hb1]
    · rw [if_neg hip]
      have hgoal : ((replaceChildOp d p nw old).nodes i).children
          = ((detachStep d nw).nodes i).children := by
        cases hb1 : (d.nodes nw).isElem <;> cases hb2 : (d.nodes old).isElem
        · rw [replaceChildOp_children_TT d p nw old i0 hidx hb1 hb2 i]
        · rw [replaceChildOp_children_TE d p nw old i0 hidx hb1 hb2 i, if_neg hip]
        · rw [replaceChildOp_children_ET_frame d p nw old i0 hidx hb1 hb2 i hip]
        · rw [replaceChildOp_children_EE d p nw old i0 hidx hb1 hb2 i, if_neg hip]
      rw [hgoal, ← hPEfun]
      exact elemFilterOk_at _ hd0F i hi0

/-- C8, amended: on a well-formed store, appendChild and removeChild keep
every node's children list a subsequence (in order) of its childNodes
list, appendChild first detaches a node that already has a different
parent from that parent's childNodes, and replaceChild keeps the
invariant provided the new node is not already a child of the receiver.
The proviso cannot be dropped: replacing one child of a node by another
child of the same node writes through the stale childNodes slice captured
before the detach and breaks the invariant (see the paired
counterexample). -/
theorem c8_mutations_preserve_subsequence (d : Dom) (p c nw old : Nat)
    (hwf : wellFormedB d = true)
    (hc : c ∈ d.dom) (hnw : nw ∈ d.dom)
    (hnwp : (d.nodes nw).parent ≠ some p) :
    subseqOkB (appendChildOp d p c) = true ∧
    subseqOkB (removeChildOp d p c) = true ∧
    subseqOkB (replaceChildOp d p nw old) = true ∧
    detachedOk d p c = true := by
  have hw := hwf
  rw [wellFormedB] at hw
  simp only [Bool.and_eq_true] at hw
  obtain ⟨⟨⟨⟨hF, hND⟩, hPO⟩, hPB⟩, hCH⟩ := hw
  refine ⟨?_, ?_, ?_, ?_⟩
  · exact subseqOk_of_filterOk _ (appendChildOp_filterOk d p c hF)
  · exact subseqOk_of_filterOk _ (removeChildOp_filterOk d p c hF)
  · exact subseqOk_of_filterOk _ (replaceChildOp_filterOk d p nw old hwf hnw hnwp)
  · unfold detachedOk
    cases hpar : (d.nodes c).parent with
    | none => rfl
    | some q =>
      by_cases hqp : q = p
      · simp [hqp]
      · obtain ⟨hqdom, hmemq⟩ := parentBack_at d hPB c q hc hpar
        obtain ⟨k, hk⟩ := goIndexOf_isSome_of_mem c _ hmemq
        have hnd := nodupOk_at d hND q hqdom
        have hdet := appendChildOp_detach d p c q k hqp hpar hk hnd
        simp [hqp, hdet]

/-- A small well-formed store: node 0 (element, childNodes 1 2, where 2 is
text), node 3 (element, child 4), nodes 1 and 4 elements. -/
def sampleDom : Dom :=
  ⟨[0, 1, 2, 3, 4], fun j =>
    if j = 0 then ⟨true, none, [1, 2], [1], none, none, none, none⟩
    else if j = 1 then ⟨true, some 0, [], [], none, none, none, none⟩
    else if j = 2 then ⟨false, some 0, [], [], none, none, none, none⟩
    else if j = 3 then ⟨true, none, [4], [4], none, none, none, none⟩
    else ⟨true, some 3, [], [], none, none, none, none⟩⟩

/-- Witness for C8 on sampleDom: append node 4 (currently under 3) to
node 0, remove node 4, replace element child 1 of node 0 by node 3. -/
theorem c8_mutations_preserve_subsequence_witness :
    subseqOkB (appendChildOp sampleDom 0 4) = true ∧
    subseqOkB (removeChildOp sampleDom 0 4) = true ∧
    subseqOkB (replaceChildOp sampleDom 0 3 1) = true ∧
    detachedOk sampleDom 0 4 = true :=
  c8_mutations_preserve_subsequence sampleDom 0 4 3 1 (by decide) (by decide)
    (by decide) (by decide)

/-- A well-formed store whose root 0 has the two element children 1 and 2,
with the element-sibling chain linking them. -/
def aliasDom : Dom :=
  ⟨[0, 1, 2], fun j =>
    if j = 0 then ⟨true, none, [1, 2], [1, 2], none, none, none, none⟩
    else if j = 1 then ⟨true, some 0, [], [], none, some 2, none, some 2⟩
    else ⟨true, some 0, [], [], some 1, none, some 1, none⟩⟩

/-- C8, counterexample: replacing child 2 of node 0 by node 1, which is
already a child of node 0, first detaches node 1 (shrinking ChildNodes to
[2] in place) and then writes node 1 through the captured slice at the
stale index 1, beyond the shortened length, so ChildNodes stays [2] while
Children becomes [1]: the element children are no longer a subsequence of
the child nodes, although the input store is well formed. -/
theorem c8_replace_aliased_breaks_subsequence :
    wellFormedB aliasDom = true ∧
    ((replaceChildOp aliasDom 0 1 2).nodes 0).childNodes = [2] ∧
    ((replaceChildOp aliasDom 0 1 2).nodes 0).children = [1] ∧
    subseqOkB (replaceChildOp aliasDom 0 1 2) = false := by
  decide

/-! ### C9: postProcessContent (readability.go 154-164) and its phases

fixRelativeUris, simplifyNestedElements and cleanClasses are modelled over
the TNode tree.  The URL arithmetic of toAbsoluteURI (net/url parsing and
resolution) and the srcset rewrite built on it are environment-dependent
library code, so they enter the model as string-function parameters; the
tree logic around them (which nodes are rewritten, the javascript: link
replacement, the traversal) is translated from the source. -/

/-- Node.SetAttribute: overwrite the first entry with this name, else
append. -/
def setAttrList : List (String × String) → String → String → List (String × String)
  | [], name, v => [(name, v)]
  | (a, b) :: rest, name, v =>
      if a = name then (a, v) :: rest else (a, b) :: setAttrList rest name v

/-- Node.RemoveAttribute: drop the first entry with this name. -/
def removeAttrList : List (String × String) → String → List (String × String)
  | [], _ => []
  | (a, b) :: rest, name =>
      if a = name then rest else (a, b) :: removeAttrList rest name

/-- Node.GetAttribute on a bag: last matching entry wins (the source scans
backwards), missing yields "". -/
def attrGet (l : List (String × String)) (name : String) : String :=
  match l.reverse.find? fun ab => ab.1 = name with
  | some ab => ab.2
  | none => ""

/-- The hasContent regexp (backslash-S at end anchor): the string ends in a
non-whitespace character. -/
def hasContentMatch (s : String) : Bool :=
  match s.data.getLast? with
  | some ch => !isReSpace ch
  | none => false

/-- isElementWithoutContent (readability.go 1646-1650): an element whose
trimmed text is empty and whose element children are all brs or hrs. -/
def isElementWithoutContent (n : TNode) : Bool :=
  n.isElem && runeLen (goTrimSpace n.textContent) == 0 &&
    (n.elemChildren.length == 0 ||
      n.elemChildren.length
        == (n.getElementsByTagName "br").length
          + (n.getElementsByTagName "hr").length)

/-- hasSingleTagInsideElement (readability.go 1633-1644): exactly one
element child with the given tag and no text child with real content. -/
def hasSingleTagInsideElement (n : TNode) (tag : String) : Bool :=
  (match n.elemChildren with
   | [c] => c.tagName == tag
   | _ => false) &&
  !(n.childNodes.any fun k => !k.isElem && hasContentMatch k.textContent)

/-- The attribute copy of simplifyNestedElements: each of the outer node's
attributes is SetAttribute'd onto the child, in order. -/
def mergeAttrsOnto (outer : List (String × String)) : TNode → TNode
  | TNode.text s => TNode.text s
  | TNode.elem t a d kids =>
      TNode.elem t (outer.foldl (fun acc nv => setAttrList acc nv.1 nv.2) a) d kids

/-- One step of the simplifyNestedElements walk for a node below the
article root: a DIV/SECTION without readability id is dropped when empty,
collapsed onto its single DIV/SECTION child (re-examining the merged
child, as the loop continues at node = child), and otherwise recursed
into.  The fuel only bounds the depth of the walk (the loop visits each
node of the finite tree once); every theorem below instantiates it above
the tree's depth. -/
def simplifyNode : Nat → TNode → Option TNode
  | 0, n => some n
  | Nat.succ _, TNode.text s => some (TNode.text s)
  | Nat.succ fuel, TNode.elem tag attrs dt kids =>
      let n := TNode.elem tag attrs dt kids
      if (tag = "DIV" || tag = "SECTION")
          && !(strStartsWith n.idAttr "readability") then
        if isElementWithoutContent n then none
        else if hasSingleTagInsideElement n "DIV"
            || hasSingleTagInsideElement n "SECTION" then
          match n.elemChildren.head? with
          | some c => simplifyNode fuel (mergeAttrsOnto attrs c)
          | none => some n
        else some (TNode.elem tag attrs dt (kids.filterMap (simplifyNode fuel)))
      else some (TNode.elem tag attrs dt (kids.filterMap (simplifyNode fuel)))

/-- simplifyNestedElements (readability.go 404-424): the root is visited
first but has no parent, so the walk starts at its children. -/
def simplifyNestedElements (fuel : Nat) : TNode → TNode
  | TNode.text s => TNode.text s
  | TNode.elem t a d kids => TNode.elem t a d (kids.filterMap (simplifyNode fuel))

/-- Go strings.Join with separator " ". -/
def joinSpace : List String → String
  | [] => ""
  | [x] => x
  | x :: rest => x ++ " " ++ joinSpace rest

/-- The class rewrite of cleanClasses: split on whitespace runs, keep the
classes to preserve, join with single spaces. -/
def cleanClassName (preserve : List String) (cls : String) : String :=
  joinSpace ((splitWs cls).filter fun s => preserve.contains s)

/-- The attribute part of cleanClasses: rewrite a nonempty class value,
then set it back when nonempty and remove the attribute otherwise. -/
def cleanClassAttrs (preserve : List String) (a : List (String × String)) :
    List (String × String) :=
  let cls := attrGet a "class"
  let cls2 := if cls ≠ "" then cleanClassName preserve cls else cls
  if cls2 ≠ "" then setAttrList a "class" cls2 else removeAttrList a "class"

mutual

/-- cleanClasses (readability.go 232-247): rewrite or remove the class
attribute, then recurse over the children (only elements carry classes). -/
def cleanClasses (preserve : List String) : TNode → TNode
  | TNode.text s => TNode.text s
  | TNode.elem t a d kids =>
      TNode.elem t (cleanClassAttrs preserve a) d (cleanClassesList preserve kids)

def cleanClassesList (preserve : List String) : List TNode → List TNode
  | [] => []
  | k :: rest => cleanClasses preserve k :: cleanClassesList preserve rest

end

/-- Go strings.Join with separator ",%20". -/
def joinP20 : List String → String
  | [] => ""
  | [x] => x
  | x :: rest => x ++ ",%20" ++ joinP20 rest

mutual

/-- The per-node rewrite of fixRelativeUris (readability.go 265-403) on
the collected link and media nodes: javascript: links become their text or
a span with their children, other hrefs are absolutised (per segment on
",%20" lists), media src/poster/srcset are rewritten. -/
def fixRelNode (toAbs srcsetFix : String → String) : TNode → TNode
  | TNode.text s => TNode.text s
  | TNode.elem t a d kids =>
      let href := attrGet a "href"
      if t = "A" && !(href = "") then
        if strStartsWith href "javascript:" then
          match kids with
          | [TNode.text s] => TNode.text (TNode.textContent (TNode.elem t a d [TNode.text s]))
          | _ => TNode.elem "SPAN" [] false (fixRelList toAbs srcsetFix kids)
        else
          let href2 :=
            if containsSub href ",%20" then
              joinP20 ((goSplit href ",%20").map toAbs)
            else toAbs href
          TNode.elem t (setAttrList a "href" href2) d (fixRelList toAbs srcsetFix kids)
      else if t = "IMG" || t = "PICTURE" || t = "FIGURE" || t = "VIDEO"
          || t = "AUDIO" || t = "SOURCE" then
        let src := attrGet a "src"
        let a1 := if !(src = "") then setAttrList a "src" (toAbs src) else a
        let poster := attrGet a1 "poster"
        let a2 := if !(poster = "") then setAttrList a1 "poster" (toAbs poster) else a1
        let srcset := attrGet a2 "srcset"
        let a3 := if !(srcset = "") then setAttrList a2 "srcset" (srcsetFix srcset)
                  else a2
        TNode.elem t a3 d (fixRelList toAbs srcsetFix kids)
      else TNode.elem t a d (fixRelList toAbs srcsetFix kids)

def fixRelList (toAbs srcsetFix : String → String) : List TNode → List TNode
  | [] => []
  | k :: rest => fixRelNode toAbs srcsetFix k :: fixRelList toAbs srcsetFix rest

end

/-- fixRelativeUris: the collected lists hold descendants only, so the
root's own attributes are never rewritten. -/
def fixRelativeUris (toAbs srcsetFix : String → String) : TNode → TNode
  | TNode.text s => TNode.text s
  | TNode.elem t a d kids => TNode.elem t a d (fixRelList toAbs srcsetFix kids)

/-- postProcessContent (readability.go 154-164). -/
def postProcessContent (toAbs srcsetFix : String → String) (keepClasses : Bool)
    (preserve : List String) (fuel : Nat) (article : TNode) : TNode :=
  let a1 := fixRelativeUris toAbs srcsetFix article
  let a2 := simplifyNestedElements fuel a1
  if keepClasses then a2 else cleanClasses preserve a2

/-- An article tree the grabber can produce: the readability-page wrapper
div holding a div whose children are an empty div and a div with text. -/
def nestedDivArticle : TNode :=
  TNode.elem "DIV" [] false
    [TNode.elem "DIV" [("id", "readability-page-1"), ("class", "page")] false
      [TNode.elem "DIV" [] false
        [TNode.elem "DIV" [] false [],
         TNode.elem "DIV" [] false [TNode.text "hello"]]]]

theorem c9_postProcess_not_idempotent_cx :
    postProcessContent (fun s => s) (fun s => s) false [] 10
        (postProcessContent (fun s => s) (fun s => s) false [] 10 nestedDivArticle)
      ≠ postProcessContent (fun s => s) (fun s => s) false [] 10 nestedDivArticle := by
  decide

/-- No attribute name occurs twice (the parser produces one entry per
attribute). -/
def namesNodup : List (String × String) → Bool
  | [] => true
  | (a, _) :: rest => !(rest.any fun x => x.1 = a) && namesNodup rest

mutual

/-- Attribute bags are duplicate-free throughout the tree. -/
def attrsWf : TNode → Bool
  | TNode.text _ => true
  | TNode.elem _ a _ kids => namesNodup a && attrsWfList kids

def attrsWfList : List TNode → Bool
  | [] => true
  | k :: rest => attrsWf k && attrsWfList rest

end

lemma attrGet_of_no_name (l : List (String × String)) (k : String)
    (h : (l.any fun x => x.1 = k) = false) : attrGet l k = "" := by
  unfold attrGet
  have h2 : l.reverse.find? (fun ab => ab.1 = k) = none := by
    apply List.find?_eq_none.mpr
    intro x hx
    rw [List.mem_reverse] at hx
    have h3 := List.any_eq_false.mp h x hx
    simpa using h3
  rw [h2]

lemma removeAttrList_of_no_name (l : List (String × String)) (k : String)
    (h : (l.any fun x => x.1 = k) = false) : removeAttrList l k = l := by
  induction l with
  | nil => rfl
  | cons ab rest ih =>
    obtain ⟨a, b⟩ := ab
    simp only [List.any_cons, Bool.or_eq_false_iff] at h
    have ha : a ≠ k := by simpa using h.1
    simp only [removeAttrList, if_neg ha]
    rw [ih h.2]

lemma remove_no_name (l : List (String × String)) (k : String)
    (h : namesNodup l = true) :
    ((removeAttrList l k).any fun x => x.1 = k) = false := by
  induction l with
  | nil => rfl
  | cons ab rest ih =>
    obtain ⟨a, b⟩ := ab
    simp only [namesNodup, Bool.and_eq_true, Bool.not_eq_true'] at h
    by_cases ha : a = k
    · subst ha
      simp only [removeAttrList, if_pos rfl]
      exact h.1
    · simp only [removeAttrList, if_neg ha, List.any_cons, Bool.or_eq_false_iff]
      exact ⟨by simpa using ha, ih h.2⟩

lemma attrGet_remove (l : List (String × String)) (k : String)
    (h : namesNodup l = true) : attrGet (removeAttrList l k) k = "" :=
  attrGet_of_no_name _ _ (remove_no_name l k h)

lemma removeAttrList_idem (l : List (String × String)) (k : String)
    (h : namesNodup l = true) :
    removeAttrList (removeAttrList l k) k = removeAttrList l k :=
  removeAttrList_of_no_name _ _ (remove_no_name l k h)

lemma setAttrList_idem (l : List (String × String)) (k v : String) :
    setAttrList (setAttrList l k v) k v = setAttrList l k v := by
  induction l with
  | nil => simp [setAttrList]
  | cons ab rest ih =>
    obtain ⟨a, b⟩ := ab
    by_cases ha : a = k
    · simp [setAttrList, ha]
    · simp only [setAttrList, if_neg ha]
      rw [ih]

lemma attrGet_set (l : List (String × String)) (k v : String)
    (h : namesNodup l = true) : attrGet (setAttrList l k v) k = v := by
  induction l with
  | nil => simp [setAttrList, attrGet]
  | cons ab rest ih =>
    obtain ⟨a, b⟩ := ab
    simp only [namesNodup, Bool.and_eq_true, Bool.not_eq_true'] at h
    by_cases ha : a = k
    · subst ha
      have hs : setAttrList ((a, b) :: rest) a v = (a, v) :: rest := by
        simp [setAttrList]
      rw [hs]
      unfold attrGet
      rw [List.reverse_cons, List.find?_append]
      have h2 : rest.reverse.find? (fun ab => ab.1 = a) = none := by
        apply List.find?_eq_none.mpr
        intro x hx
        rw [List.mem_reverse] at hx
        have h3 := List.any_eq_false.mp h.1 x hx
        simpa using h3
      rw [h2]
      simp
    · have hs : setAttrList ((a, b) :: rest) k v = (a, b) :: setAttrList rest k v := by
        simp [setAttrList, ha]
      rw [hs]
      unfold attrGet
      rw [List.reverse_cons, List.find?_append]
      have h2 : List.find? (fun ab => ab.1 = k) [(a, b)] = none := by
        simp [List.find?, ha]
      rw [h2, Option.or_none]
      have ih2 := ih h.2
      unfold attrGet at ih2
      exact ih2

/-- Character form of "space-joined tail": one space before each further
piece. -/
def joinSepChars : List (List Char) → List Char
  | [] => []
  | u :: rest => ' ' :: (u ++ joinSepChars rest)

lemma asString_data (s : String) : List.asString s.data = s := by
  cases s
  rfl

lemma joinSpace_data (x : String) (L : List String) :
    (joinSpace (x :: L)).data = x.data ++ joinSepChars (L.map String.data) := by
  induction L generalizing x with
  | nil => simp [joinSpace, joinSepChars]
  | cons y L ih =>
    show (x ++ " " ++ joinSpace (y :: L)).data = _
    rw [String.data_append, String.data_append, ih y]
    simp [joinSepChars]

lemma splitWsAcc_join (L : List (List Char)) :
    (∀ u ∈ L, u ≠ [] ∧ ∀ c ∈ u, isReSpace c = false) →
    ∀ (t cur : List Char), (∀ c ∈ t, isReSpace c = false) →
    splitWsAcc (t ++ joinSepChars L) cur = (cur.reverse ++ t) :: L := by
  induction L with
  | nil =>
    intro _ t
    induction t with
    | nil =>
      intro cur _
      simp [joinSepChars, splitWsAcc]
    | cons c t ih =>
      intro cur hT
      have hc : isReSpace c = false := hT c (List.mem_cons_self c t)
      simp only [joinSepChars, List.cons_append, splitWsAcc, hc,
        Bool.false_eq_true, if_false]
      have h4 := ih (c :: cur) (fun d hd => hT d (List.mem_cons_of_mem c hd))
      simp only [joinSepChars, List.append_eq, List.append_nil, List.reverse_cons,
        List.append_assoc, List.cons_append, List.nil_append] at h4 ⊢
      exact h4
  | cons u rest ihL =>
    intro hL t
    induction t with
    | nil =>
      intro cur _
      simp only [joinSepChars, List.nil_append, splitWsAcc]
      rw [if_pos (show isReSpace ' ' = true by decide)]
      obtain ⟨hu, hufree⟩ := hL u (List.mem_cons_self u rest)
      cases u with
      | nil => exact absurd rfl hu
      | cons c u2 =>
        have hc : isReSpace c = false := hufree c (List.mem_cons_self c u2)
        simp only [List.cons_append, splitWsSkipRun, hc, Bool.false_eq_true,
          if_false]
        have h4 := ihL (fun w hw => hL w (List.mem_cons_of_mem (c :: u2) hw)) u2 [c]
          (fun d hd => hufree d (List.mem_cons_of_mem c hd))
        simp only [List.append_eq, List.reverse_cons, List.reverse_nil,
          List.nil_append, List.cons_append, List.append_nil] at h4 ⊢
        rw [h4]
    | cons c t ih =>
      intro cur hT
      have hc : isReSpace c = false := hT c (List.mem_cons_self c t)
      simp only [joinSepChars, List.cons_append, splitWsAcc, hc,
        Bool.false_eq_true, if_false]
      have h4 := ih (c :: cur) (fun d hd => hT d (List.mem_cons_of_mem c hd))
      simp only [joinSepChars, List.append_eq, List.reverse_cons,
        List.append_assoc, List.cons_append, List.nil_append] at h4 ⊢
      exact h4

lemma splitWs_joinSpace (x : String) (L : List String)
    (hL : ∀ u ∈ x :: L, u ≠ "" ∧ ∀ c ∈ u.data, isReSpace c = false) :
    splitWs (joinSpace (x :: L)) = x :: L := by
  unfold splitWs
  rw [joinSpace_data]
  rw [splitWsAcc_join (L.map String.data) ?_ x.data [] ?_]
  · simp only [List.reverse_nil, List.nil_append, List.map_cons]
    rw [asString_data]
    congr 1
    rw [List.map_map]
    have : (List.asString ∘ String.data) = id := funext fun s => asString_data s
    rw [this, List.map_id]
  · intro u hu
    rw [List.mem_map] at hu
    obtain ⟨s, hs, rfl⟩ := hu
    obtain ⟨h1, h2⟩ := hL s (List.mem_cons_of_mem x hs)
    refine ⟨?_, h2⟩
    intro he
    apply h1
    have := congrArg List.asString he
    rw [asString_data] at this
    exact this
  · exact (hL x (List.mem_cons_self x L)).2

lemma contains_iff_mem (l : List String) (s : String) :
    l.contains s = true ↔ s ∈ l := List.elem_iff

lemma cleanClassName_idem (p : List String)
    (hp : (p.all fun s => !(s == "") && s.data.all fun c => !isReSpace c) = true)
    (cls : String) :
    cleanClassName p (cleanClassName p cls) = cleanClassName p cls := by
  have hpm : ∀ s ∈ p, s ≠ "" ∧ ∀ c ∈ s.data, isReSpace c = false := by
    intro s hs
    have h2 := List.all_eq_true.mp hp s hs
    simp only [Bool.and_eq_true, Bool.not_eq_true', beq_eq_false_iff_ne] at h2
    obtain ⟨h3, h4⟩ := h2
    refine ⟨h3, ?_⟩
    intro c hc
    have h5 := List.all_eq_true.mp h4 c hc
    simpa using h5
  unfold cleanClassName
  cases hK : (splitWs cls).filter (fun s => p.contains s) with
  | nil =>
    have h0 : splitWs (joinSpace ([] : List String)) = [""] := by decide
    rw [h0]
    have hc0 : p.contains "" = false := by
      cases hcc : p.contains ""
      · rfl
      · exact absurd rfl ((hpm "" ((contains_iff_mem p "").mp hcc)).1)
    have hnm : "" ∉ p := fun hmem => absurd rfl (hpm "" hmem).1
    have hfe : List.filter (fun s => p.contains s) [""] = [] := by
      rw [List.filter_cons_of_neg (by simpa using hnm)]
      rfl
    rw [hfe]
  | cons k K2 =>
    have hmemp : ∀ u ∈ k :: K2, u ∈ p := by
      intro u hu
      rw [← hK] at hu
      have h6 := (List.mem_filter.mp hu).2
      exact (contains_iff_mem p u).mp (by simpa using h6)
    have hwf2 : ∀ u ∈ k :: K2, u ≠ "" ∧ ∀ c ∈ u.data, isReSpace c = false :=
      fun u hu => hpm u (hmemp u hu)
    rw [splitWs_joinSpace k K2 hwf2]
    have hfilter : (k :: K2).filter (fun s => p.contains s) = k :: K2 := by
      apply List.filter_eq_self.mpr
      intro u hu
      simpa using (contains_iff_mem p u).mpr (hmemp u hu)
    rw [hfilter]

lemma cleanClassAttrs_idem (p : List String)
    (hp : (p.all fun s => !(s == "") && s.data.all fun c => !isReSpace c) = true)
    (a : List (String × String)) (ha : namesNodup a = true) :
    cleanClassAttrs p (cleanClassAttrs p a) = cleanClassAttrs p a := by
  by_cases h1 : attrGet a "class" = ""
  · have e1 : cleanClassAttrs p a = removeAttrList a "class" := by
      unfold cleanClassAttrs
      simp [h1]
    rw [e1]
    have h2 : attrGet (removeAttrList a "class") "class" = "" :=
      attrGet_remove a "class" ha
    unfold cleanClassAttrs
    simp only [h2, ne_eq, not_true_eq_false, if_false, ite_self]
    exact removeAttrList_idem a "class" ha
  · by_cases h2 : cleanClassName p (attrGet a "class") = ""
    · have e1 : cleanClassAttrs p a = removeAttrList a "class" := by
        unfold cleanClassAttrs
        simp [h1, h2]
      rw [e1]
      have h3 : attrGet (removeAttrList a "class") "class" = "" :=
        attrGet_remove a "class" ha
      unfold cleanClassAttrs
      simp only [h3, ne_eq, not_true_eq_false, if_false, ite_self]
      exact removeAttrList_idem a "class" ha
    · have e1 : cleanClassAttrs p a
          = setAttrList a "class" (cleanClassName p (attrGet a "class")) := by
        unfold cleanClassAttrs
        simp [h1, h2]
      rw [e1]
      have h3 : attrGet (setAttrList a "class" (cleanClassName p (attrGet a "class")))
          "class" = cleanClassName p (attrGet a "class") :=
        attrGet_set a "class" _ ha
      have h4 : cleanClassName p (cleanClassName p (attrGet a "class"))
          = cleanClassName p (attrGet a "class") := cleanClassName_idem p hp _
      have e2 : cleanClassAttrs p
            (setAttrList a "class" (cleanClassName p (attrGet a "class")))
          = setAttrList
              (setAttrList a "class" (cleanClassName p (attrGet a "class")))
              "class" (cleanClassName p (attrGet a "class")) := by
        unfold cleanClassAttrs
        rw [h3]
        simp [h2, h4]
      rw [e2]
      exact setAttrList_idem a "class" _

/-- C9: post-processing as a whole is not idempotent (see the paired
counterexample, where simplifyNestedElements exposes a new single-child
nesting that only a second pass collapses); the class-cleaning phase on
its own is idempotent whenever the preserved class names are nonempty and
whitespace-free and no element carries a duplicated attribute name. -/
theorem c9_cleanClasses_idempotent (preserve : List String) (n : TNode)
    (hp : (preserve.all fun s => !(s == "") && s.data.all fun c => !isReSpace c)
        = true)
    (hwf : attrsWf n = true) :
    cleanClasses preserve (cleanClasses preserve n) = cleanClasses preserve n := by
  refine @TNode.rec
    (fun m => attrsWf m = true →
      cleanClasses preserve (cleanClasses preserve m) = cleanClasses preserve m)
    (fun l => attrsWfList l = true →
      cleanClassesList preserve (cleanClassesList preserve l)
        = cleanClassesList preserve l)
    ?_ ?_ ?_ ?_ n hwf
  · intro tag attrs dt kids ihk hA
    rw [attrsWf] at hA
    simp only [Bool.and_eq_true] at hA
    show TNode.elem tag (cleanClassAttrs preserve (cleanClassAttrs preserve attrs))
        dt (cleanClassesList preserve (cleanClassesList preserve kids))
      = TNode.elem tag (cleanClassAttrs preserve attrs) dt
          (cleanClassesList preserve kids)
    rw [cleanClassAttrs_idem preserve hp attrs hA.1, ihk hA.2]
  · intro s _
    rfl
  · intro _
    rfl
  · intro hd tl ih1 ih2 hA
    rw [attrsWfList] at hA
    simp only [Bool.and_eq_true] at hA
    show cleanClasses preserve (cleanClasses preserve hd)
        :: cleanClassesList preserve (cleanClassesList preserve tl)
      = cleanClasses preserve hd :: cleanClassesList preserve tl
    rw [ih1 hA.1, ih2 hA.2]

/-- C9 witness: the amended idempotence applied to the sample article with
the preserved class list of the engine's option default plus "page". -/
theorem c9_cleanClasses_idempotent_witness :
    ((["page"].all fun s => !(s == "") && s.data.all fun c => !isReSpace c)
        = true) ∧
    attrsWf nestedDivArticle = true ∧
    cleanClasses ["page"] (cleanClasses ["page"] nestedDivArticle)
      = cleanClasses ["page"] nestedDivArticle :=
  ⟨by decide, by decide,
    c9_cleanClasses_idempotent ["page"] nestedDivArticle (by decide) (by decide)⟩

end GoReadability
